import Mathlib

/-!
Verification development for the Fibonacci Bloom Integrity verifier
(`full_verifier.py`), its seed-derivation layer (`arc_integrity.py`) and
the Guardian-Arc trajectory engine (`guardian_arc.py`).

The Python code is shallowly embedded:
  * machine bytes and 64-bit lanes are `Nat` with explicit reduction
    modulo `2 ^ 64`;
  * JSON documents are an inductive `JValue` whose numbers are exact
    rationals; every floating-point constant of the source is embedded
    as the exact rational value of the IEEE-754 double the source
    computes;
  * Python operations that can raise (`dict.get` on a non-dict,
    `len` of an int, `-` between a string and a float, ...) are modelled
    in an `Except PyErr` monad, so that exception propagation out of
    `verify_envelope` is observable.
-/

namespace Bloom

/-! ## SHA3-512 (Keccak), as used by `hashlib.sha3_512` -/

/-- 64-bit rotate left, on `Nat` reduced modulo `2 ^ 64`. -/
def rotl64 (x n : Nat) : Nat :=
  ((x <<< n) % 2 ^ 64) ||| (x >>> (64 - n))

/-- Keccak rho rotation offsets, indexed by lane `x + 5 * y`. -/
def keccakRho : List Nat :=
  [0, 1, 62, 28, 27, 36, 44, 6, 55, 20, 3, 10, 43] ++
    [25, 39, 41, 45, 15, 21, 8, 18, 2, 61, 56, 14]

/-- Keccak round constants for the 24 rounds of Keccak-f[1600]. -/
def keccakRC : List Nat :=
  [1, 32898,
   9223372036854808714, 9223372039002292224,
   32907, 2147483649,
   9223372039002292353, 9223372036854808585,
   138, 136,
   2147516425, 2147483658,
   2147516555, 9223372036854775947,
   9223372036854808713, 9223372036854808579,
   9223372036854808578, 9223372036854775936,
   32778, 9223372039002259466,
   9223372039002292353, 9223372036854808704,
   2147483649, 9223372039002292232]

/-- Theta step of the Keccak round function on a 25-lane state. -/
def keccakTheta (A : List Nat) : List Nat :=
  let C := (List.range 5).map (fun x =>
    A.getD x 0 ^^^ A.getD (x + 5) 0 ^^^ A.getD (x + 10) 0 ^^^
      A.getD (x + 15) 0 ^^^ A.getD (x + 20) 0)
  let D := (List.range 5).map (fun x =>
    C.getD ((x + 4) % 5) 0 ^^^ rotl64 (C.getD ((x + 1) % 5) 0) 1)
  (List.range 25).map (fun i => A.getD i 0 ^^^ D.getD (i % 5) 0)

/-- Combined rho and pi steps: output lane `X + 5 * Y` is the rotated
input lane `x + 5 * y` with `y = X` and `x = 3 * (Y + 2 * X) mod 5`. -/
def keccakRhoPi (A : List Nat) : List Nat :=
  (List.range 25).map (fun j =>
    let X := j % 5
    let Y := j / 5
    let x := (3 * (Y + 2 * X)) % 5
    let src := x + 5 * X
    rotl64 (A.getD src 0) (keccakRho.getD src 0))

/-- Chi step of the Keccak round function. -/
def keccakChi (B : List Nat) : List Nat :=
  (List.range 25).map (fun j =>
    let x := j % 5
    let y := j / 5
    B.getD j 0 ^^^
      ((B.getD ((x + 1) % 5 + 5 * y) 0 ^^^ (2 ^ 64 - 1)) &&&
        B.getD ((x + 2) % 5 + 5 * y) 0))

/-- Iota step: xor the round constant into lane 0. -/
def keccakIota (r : Nat) (A : List Nat) : List Nat :=
  match A with
  | [] => []
  | a :: rest => (a ^^^ keccakRC.getD r 0) :: rest

/-- One Keccak round. -/
def keccakRound (r : Nat) (A : List Nat) : List Nat :=
  keccakIota r (keccakChi (keccakRhoPi (keccakTheta A)))

/-- The full Keccak-f[1600] permutation (24 rounds). -/
def keccakF (A : List Nat) : List Nat :=
  (List.range 24).foldl (fun st r => keccakRound r st) A

/-- SHA3 padding (`0x06 .. 0x80`) to a multiple of the 72-byte rate. -/
def sha3Pad (msg : List Nat) : List Nat :=
  let padLen := 72 - msg.length % 72
  if padLen = 1 then msg ++ [0x86]
  else msg ++ [0x06] ++ List.replicate (padLen - 2) 0 ++ [0x80]

/-- Interpret 72 bytes as 9 little-endian 64-bit lanes. -/
def bytesToLanes (block : List Nat) : List Nat :=
  (List.range 9).map (fun i =>
    (List.range 8).foldr (fun b acc => acc * 256 + block.getD (8 * i + b) 0) 0)

/-- Xor a block of lanes into the state. -/
def xorInto (A B : List Nat) : List Nat :=
  (List.range 25).map (fun i => A.getD i 0 ^^^ B.getD i 0)

/-- Split a byte list into consecutive 72-byte blocks (structural
recursion on a fuel bound so that the kernel can evaluate it). -/
def blocks72Go : Nat → List Nat → List (List Nat)
  | 0, _ => []
  | _ + 1, [] => []
  | fuel + 1, l => l.take 72 :: blocks72Go fuel (l.drop 72)

/-- Split a byte list into consecutive 72-byte blocks. -/
def blocks72 (l : List Nat) : List (List Nat) :=
  blocks72Go l.length l

/-- Absorb all padded blocks into the Keccak sponge. -/
def keccakAbsorb (padded : List Nat) : List Nat :=
  (blocks72 padded).foldl (fun A block => keccakF (xorInto A (bytesToLanes block)))
    (List.replicate 25 0)

/-- Read `n` output bytes from the state, little-endian per lane. -/
def lanesToBytes (A : List Nat) (n : Nat) : List Nat :=
  (List.range n).map (fun i => (A.getD (i / 8) 0 >>> (8 * (i % 8))) % 256)

/-- One lowercase hex digit. -/
def hexDigit (n : Nat) : Char :=
  (String.toList "0123456789abcdef").getD n '0'

/-- Two lowercase hex digits for one byte. -/
def byteToHex (b : Nat) : List Char :=
  [hexDigit (b / 16 % 16), hexDigit (b % 16)]

/-- Lowercase hex encoding of a byte list. -/
def bytesToHex (bs : List Nat) : String :=
  String.mk ((bs.map byteToHex).join)

/-- UTF-8 encoding of one character, as `str.encode()` produces. -/
def utf8EncodeChar (c : Char) : List Nat :=
  let n := c.toNat
  if n < 0x80 then [n]
  else if n < 0x800 then
    [0xC0 ||| (n >>> 6), 0x80 ||| (n &&& 0x3F)]
  else if n < 0x10000 then
    [0xE0 ||| (n >>> 12), 0x80 ||| ((n >>> 6) &&& 0x3F), 0x80 ||| (n &&& 0x3F)]
  else
    [0xF0 ||| (n >>> 18), 0x80 ||| ((n >>> 12) &&& 0x3F),
     0x80 ||| ((n >>> 6) &&& 0x3F), 0x80 ||| (n &&& 0x3F)]

/-- UTF-8 bytes of a string (`str.encode()`). -/
def strBytes (s : String) : List Nat :=
  (s.toList.map utf8EncodeChar).join

/-- The `sha3_512_hex`: SHA3-512 of raw bytes, lowercase hex string. -/
def sha3_512_hex (data : List Nat) : String :=
  bytesToHex (lanesToBytes (keccakAbsorb (sha3Pad data)) 64)

/-- The `sha3_512_hex` applied to the UTF-8 bytes of a string. -/
def sha3_512_hex_str (s : String) : String :=
  sha3_512_hex (strBytes s)

/-! ## JSON values and Python dynamic semantics

JSON documents decoded by `json.loads` are modelled by `JValue`.
Numbers are exact rationals: every floating-point literal of the source
is embedded as the exact rational value of the corresponding IEEE-754
double, and arithmetic on them is exact (the operations the claims
exercise — `x - x`, and subtraction of two doubles within a factor of
two of each other — are exact in IEEE-754 as well, so the model agrees
with the code on those points).  Python operations that can raise are
modelled in `Except PyErr`. -/

inductive JValue where
  | null
  | bool (b : Bool)
  | num (q : ℚ)
  | str (s : String)
  | arr (elems : List JValue)
  | obj (kvs : List (String × JValue))
deriving Inhabited

/-- The Python exceptions the verifier can raise. -/
inductive PyErr where
  | typeError
  | attributeError
  | valueError
deriving DecidableEq, Inhabited

/-- First binding for a key in a decoded JSON object (objects produced
by `json.loads` have unique keys). -/
def jlookup (kvs : List (String × JValue)) (key : String) : Option JValue :=
  (kvs.find? (fun kv => kv.1 == key)).map Prod.snd

/-- The `d.get(key, default)`: requires a dict, raises `AttributeError`
on any other value. -/
def pyGet (d : JValue) (key : String) (dflt : JValue) : Except PyErr JValue :=
  match d with
  | .obj kvs => .ok ((jlookup kvs key).getD dflt)
  | _ => .error .attributeError

/-- Python truthiness of a decoded JSON value. -/
def pyTruthy : JValue → Bool
  | .null => false
  | .bool b => b
  | .num q => q != 0
  | .str s => s.length != 0
  | .arr l => !l.isEmpty
  | .obj kvs => !kvs.isEmpty

/-- The `len(v)`: defined on strings, lists and dicts, `TypeError` otherwise. -/
def pyLen : JValue → Except PyErr Nat
  | .str s => .ok s.length
  | .arr l => .ok l.length
  | .obj kvs => .ok kvs.length
  | _ => .error .typeError

/-- Iteration (`for x in v`): lists yield elements, strings yield
one-character strings, dicts yield their keys; `TypeError` otherwise. -/
def pyIter : JValue → Except PyErr (List JValue)
  | .arr l => .ok l
  | .str s => .ok (s.toList.map (fun c => .str (String.mk [c])))
  | .obj kvs => .ok (kvs.map (fun kv => .str kv.1))
  | _ => .error .typeError

/-- Python numeric coercion for `-`: numbers and bools are numeric,
everything else raises `TypeError`. -/
def pyToNum : JValue → Except PyErr ℚ
  | .num q => .ok q
  | .bool b => .ok (if b then 1 else 0)
  | _ => .error .typeError

/-- Lexicographic (code-point) comparison of character lists, the
order `sorted`/`sort_keys` uses on strings. -/
def charListLe : List Char → List Char → Bool
  | [], _ => true
  | _ :: _, [] => false
  | a :: as, b :: bs =>
    if a.toNat < b.toNat then true
    else if b.toNat < a.toNat then false
    else charListLe as bs

/-- String order used by `sort_keys=True`. -/
def strLe (a b : String) : Bool := charListLe a.toList b.toList

/-- Insert into a key-sorted association list. -/
def insertByKey (p : String × JValue) :
    List (String × JValue) → List (String × JValue)
  | [] => [p]
  | q :: rest =>
    if strLe p.1 q.1 then p :: q :: rest else q :: insertByKey p rest

/-- Sort an association list by key (`sort_keys=True`). -/
def sortByKey : List (String × JValue) → List (String × JValue)
  | [] => []
  | p :: rest => insertByKey p (sortByKey rest)

/-- Decimal digits of a natural number. -/
def natRepr (n : Nat) : String := toString n

/-- Serialization of a number by `json.dumps` / `str`.  Integral values
print as Python ints do.  Non-integral values never occur in the inputs
the claims are settled on; for them the model prints an exact
`num/den` form where CPython would print the shortest round-tripping
decimal of the double — a representation difference that no claim
observes. -/
def numRepr (q : ℚ) : String :=
  if q.den = 1 then
    (if q.num < 0 then "-" ++ natRepr q.num.natAbs else natRepr q.num.natAbs)
  else
    (if q.num < 0 then "-" ++ natRepr q.num.natAbs else natRepr q.num.natAbs)
      ++ "/" ++ natRepr q.den

/-- JSON string escaping as `json.dumps` produces for the ASCII
strings the claims exercise. -/
def jstrEscapeChar (c : Char) : List Char :=
  if c = '"' then ['\\', '"']
  else if c = '\\' then ['\\', '\\']
  else if c.toNat < 32 then
    ['\\', 'u', '0', '0', hexDigit (c.toNat / 16), hexDigit (c.toNat % 16)]
  else [c]

/-- A JSON string literal with quotes. -/
def jstr (s : String) : String :=
  "\"" ++ String.mk ((s.toList.map jstrEscapeChar).join) ++ "\""

/-- Insert into a list of serialized members sorted by key. -/
def insertSerialized (p : String × String) :
    List (String × String) → List (String × String)
  | [] => [p]
  | q :: rest =>
    if strLe p.1 q.1 then p :: q :: rest else q :: insertSerialized p rest

/-- Sort serialized members by key (`sort_keys=True`). -/
def sortSerialized : List (String × String) → List (String × String)
  | [] => []
  | p :: rest => insertSerialized p (sortSerialized rest)

/-- Join serialized, key-sorted members with `":"` and `","`. -/
def joinMembers : List (String × String) → String
  | [] => ""
  | [kv] => jstr kv.1 ++ ":" ++ kv.2
  | kv :: rest => jstr kv.1 ++ ":" ++ kv.2 ++ "," ++ joinMembers rest

mutual
/-- The `json.dumps(obj, separators=(",", ":"), sort_keys=True)`: the
canonical serialization `sha3_json` hashes.  Members are serialized
and then emitted in key-sorted order. -/
def jdumps : JValue → String
  | .null => "null"
  | .bool true => "true"
  | .bool false => "false"
  | .num q => numRepr q
  | .str s => jstr s
  | .arr l => "[" ++ jdumpsList l ++ "]"
  | .obj kvs => "\x7b" ++ joinMembers (sortSerialized (jdumpsMembers kvs)) ++ "\x7d"

/-- Comma-separated serialization of array elements. -/
def jdumpsList : List JValue → String
  | [] => ""
  | [v] => jdumps v
  | v :: rest => jdumps v ++ "," ++ jdumpsList rest

/-- Serialize each object member value, keeping its key. -/
def jdumpsMembers : List (String × JValue) → List (String × String)
  | [] => []
  | kv :: rest => (kv.1, jdumps kv.2) :: jdumpsMembers rest
end

/-- Python `==` as the verifier applies it (`True == 1`, numbers
compare by value, strings by content, values of different kinds are
unequal).  In every comparison the source performs, one operand is a
number (the position index) or a string (a recomputed digest), so
container-against-container comparisons — which Python would compare
structurally — never occur; they are modelled by the cross-kind
result `false`. -/
def pyEq : JValue → JValue → Bool
  | .null, .null => true
  | .bool a, .bool b => a == b
  | .bool a, .num b => (if a then (1 : ℚ) else 0) == b
  | .num a, .bool b => a == (if b then (1 : ℚ) else 0)
  | .num a, .num b => a == b
  | .str a, .str b => a == b
  | _, _ => false

mutual
/-- Python `repr` of a decoded JSON value (used by `str` on
containers).  String quoting is modelled with single quotes; the
quote-choice corner cases of CPython `repr` are not observed by any
claim. -/
def pyRepr : JValue → String
  | .null => "None"
  | .bool true => "True"
  | .bool false => "False"
  | .num q => numRepr q
  | .str s => "'" ++ s ++ "'"
  | .arr l => "[" ++ pyReprList l ++ "]"
  | .obj kvs => "\x7b" ++ pyReprObj kvs ++ "\x7d"

/-- The `repr` of list items, comma-space separated. -/
def pyReprList : List JValue → String
  | [] => ""
  | [v] => pyRepr v
  | v :: rest => pyRepr v ++ ", " ++ pyReprList rest

/-- The `repr` of dict items, comma-space separated. -/
def pyReprObj : List (String × JValue) → String
  | [] => ""
  | [kv] => "'" ++ kv.1 ++ "': " ++ pyRepr kv.2
  | kv :: rest => "'" ++ kv.1 ++ "': " ++ pyRepr kv.2 ++ ", " ++ pyReprObj rest
end

/-- Python `str()` / f-string formatting of a decoded JSON value. -/
def pyFormat : JValue → String
  | .str s => s
  | v => pyRepr v

/-! ## `full_verifier.py` -/

/-- The `GENESIS_TIMESTAMP`, the default recurrence salt. -/
def GENESIS_TIMESTAMP : String := "2025-12-02T23:59:59Z"

/-- The `TRUE_PHI = (1 + 5 ** 0.5) / 2`: the exact rational value of the
IEEE-754 double the source computes (`0x1.9e3779b97f4a8p+0`). -/
def TRUE_PHI : ℚ := 910872158600853 / 562949953421312

/-- The `PHI_TOL = 1e-9`: the exact rational value of that double. -/
def PHI_TOL : ℚ := 4835703278458517 / 4835703278458516698824704

/-- Membership in `HEX_CHARS`. -/
def isHexChar (c : Char) : Bool :=
  (String.toList "0123456789abcdefABCDEF").contains c

/-- The `sha3_json`: SHA3-512 of the canonical JSON serialization. -/
def sha3_json (v : JValue) : String :=
  sha3_512_hex_str (jdumps v)

/-- The `fibonacci_fingerprint(genesis, parent_a, parent_b)`: SHA3-512 of
the f-string `f"(parent_a)(parent_b)(genesis)(RESONANCE_HZ)"` with
`RESONANCE_HZ = 963`.  In the source the three arguments are annotated
`str` but, being Python, any document value can reach them; the
f-string formats them with `str()`. -/
def fibonacci_fingerprint (genesis parent_a parent_b : JValue) : String :=
  sha3_512_hex_str
    (pyFormat parent_a ++ pyFormat parent_b ++ pyFormat genesis ++ "963")

/-- The `is_valid_sha3_hex`: a `str` of exactly 128 hex characters. -/
def is_valid_sha3_hex : JValue → Bool
  | .str s => s.length == 128 && s.toList.all isHexChar
  | _ => false

/-- The `verify_eternal_fingerprint`: pop `eternal_fingerprint`, hash the
rest canonically, compare.  Returns `(ok, stored or "", recomputed)`;
`dict(bloom_core)` raises `TypeError` on a non-dict. -/
def verify_eternal_fingerprint (bloom_core : JValue) :
    Except PyErr (Bool × JValue × String) :=
  match bloom_core with
  | .obj kvs =>
    let stored : JValue := (jlookup kvs "eternal_fingerprint").getD .null
    let temp := kvs.filter (fun kv => !(kv.1 == "eternal_fingerprint"))
    let recomputed := sha3_json (.obj temp)
    .ok (pyEq stored (.str recomputed),
         if pyTruthy stored then stored else .str "",
         recomputed)
  | _ => .error .typeError

/-- One diagnostic record appended to `details` by `verify_coil_chain`. -/
inductive Detail where
  /-- `error: index_mismatch` with `expected_index` / `actual_index`. -/
  | indexMismatch (coil : JValue) (expectedIndex : Nat) (actualIndex : JValue)
  /-- `error: invalid_fingerprint_format` with `expected_length: 128`
  and `actual_length`. -/
  | invalidFormat (coil : JValue) (actualLength : Nat)
  /-- `error: fingerprint_mismatch` with truncated `expected`/`actual`. -/
  | mismatch (coil : JValue) (expected actual : String)

/-- The 32-character display truncation `s[:32] + "..."`. -/
def take32 (s : String) : String := String.mk (s.toList.take 32) ++ "..."

/-- The positional parent pair for position `i`, read off the
`fingerprints` accumulator exactly as the loop does. -/
def chainParents (i : Nat) (fps : List JValue) : JValue × JValue :=
  if i = 0 then (.str "0", .str "0")
  else if i = 1 then (.str "0", fps.getD 0 .null)
  else (fps.getD (i - 2) .null, fps.getD (i - 1) .null)

/-- The loop body of `verify_coil_chain`, position by position, with
the `bad_coils` / `details` / `fingerprints` accumulators.  Entries
must be dicts (`gen.get` raises `AttributeError` otherwise); an entry
failing the format check is appended to `fingerprints` and skipped
(`continue`) without recomputation, after `len(stored_fp)` — which
raises `TypeError` for unsized values — is recorded. -/
def chainGo (genesis : JValue) :
    List JValue → Nat → List JValue → List Detail → List JValue →
    Except PyErr (List JValue × List Detail × List JValue)
  | [], _, bad, details, fps => .ok (bad, details, fps)
  | gen :: rest, i, bad, details, fps =>
    match gen with
    | .obj g =>
      let idx := (jlookup g "coil").getD (.num i)
      let stored := (jlookup g "fingerprint").getD (.str "")
      let bad1 := if pyEq idx (.num i) then bad else bad ++ [idx]
      let det1 := if pyEq idx (.num i) then details
        else details ++ [.indexMismatch idx i idx]
      if is_valid_sha3_hex stored then
        let p := chainParents i fps
        let expected := fibonacci_fingerprint genesis p.1 p.2
        let bad2 := if pyEq stored (.str expected) then bad1 else bad1 ++ [idx]
        let det2 := if pyEq stored (.str expected) then det1
          else det1 ++ [.mismatch idx (take32 expected)
            (match stored with | .str s => take32 s | _ => "")]
        chainGo genesis rest (i + 1) bad2 det2 (fps ++ [stored])
      else
        match pyLen stored with
        | .error e => .error e
        | .ok n =>
          chainGo genesis rest (i + 1) (bad1 ++ [idx])
            (det1 ++ [.invalidFormat idx n]) (fps ++ [stored])
    | _ => .error .attributeError

/-- The `verify_coil_chain`: returns `(all_ok, bad_coils, details)`;
missing `generations` defaults to `[]`, missing `genesis` to
`GENESIS_TIMESTAMP`; a falsy `generations` is trivially OK. -/
def verify_coil_chain (bloom_core : JValue) :
    Except PyErr (Bool × List JValue × List Detail) := do
  let gens ← pyGet bloom_core "generations" (.arr [])
  let genesis ← pyGet bloom_core "genesis" (.str GENESIS_TIMESTAMP)
  if pyTruthy gens then do
    let items ← pyIter gens
    let r ← chainGo genesis items 0 [] [] []
    pure (r.1.length == 0, r.1, r.2.1)
  else
    pure (true, [], [])

/-- The `verify_phi`: `delta = abs(observed - TRUE_PHI)`, `ok` iff
`delta < PHI_TOL`; `observed` defaults to `0.0` and a non-numeric
value raises `TypeError` in the subtraction. -/
def verify_phi (bloom_core : JValue) :
    Except PyErr (Bool × JValue × ℚ) := do
  let obs ← pyGet bloom_core "phi_ratio_observed" (.num 0)
  let q ← pyToNum obs
  let delta := |q - TRUE_PHI|
  pure (decide (delta < PHI_TOL), obs, delta)

/-- The `external_fingerprints` sub-report: count, sources, algorithms
and the `verified` placeholder. -/
structure ExtReport where
  count : Nat
  sources : List JValue
  algorithms : List JValue
  verified : Option Bool
deriving Inhabited

/-- The `[e.get(key) for e in externals]`, left to right. -/
def getFields (key : String) : List JValue → Except PyErr (List JValue)
  | [] => .ok []
  | e :: rest => do
    let v ← (match e with
      | .obj g => .ok ((jlookup g key).getD .null)
      | _ => Except.error .attributeError)
    let r ← getFields key rest
    pure (v :: r)

/-- The `verify_external_fingerprints`: report-only, `verified` is always
the `None` placeholder. -/
def verify_external_fingerprints (data : JValue) :
    Except PyErr ExtReport := do
  let exts ← pyGet data "external_fingerprints" (.arr [])
  let n ← pyLen exts
  let items ← pyIter exts
  let srcs ← getFields "source" items
  let algs ← getFields "algorithm" items
  pure ⟨n, srcs, algs, none⟩

/-- The `eternal_fingerprint` block of the envelope report. -/
structure EFReport where
  ok : Bool
  stored : Option String
  recomputed : String
deriving Inhabited

/-- The `coil_chain` block of the envelope report. -/
structure ChainReport where
  ok : Bool
  coilsChecked : Nat
  badCoils : List JValue
  details : Option (List Detail)

/-- The `phi_ratio` block of the envelope report. -/
structure PhiReport where
  ok : Bool
  observed : JValue
  expected : ℚ
  delta : ℚ
  tolerance : ℚ
deriving Inhabited

/-- The full report returned by `verify_envelope`. -/
structure Report where
  result : String
  eternal : EFReport
  chain : ChainReport
  phi : PhiReport
  external : ExtReport
  verdict : String

instance : Inhabited Report :=
  ⟨⟨"", default, ⟨false, 0, [], none⟩, default, default, ""⟩⟩

/-- The report field `stored_ef[:32] + "..." if stored_ef else None`:
slicing and concatenation raise `TypeError` for a truthy non-string. -/
def efStoredField (v : JValue) : Except PyErr (Option String) :=
  if pyTruthy v then
    match v with
    | .str s => Except.ok (some (take32 s))
    | _ => Except.error PyErr.typeError
  else Except.ok none

/-- The `verify_envelope`: full envelope verification.  The overall
verdict is `PASS` iff the three core checks pass; the report echoes
truncated digests (`stored_ef[:32] + "..."` raises `TypeError` when a
truthy non-string is stored) and `len(bloom_core.get("generations",
[]))` as `coils_checked`. -/
def verify_envelope (data : JValue) : Except PyErr Report := do
  let bloomCore ← pyGet data "serpent_bloom_core" (.obj [])
  let ef ← verify_eternal_fingerprint bloomCore
  let ch ← verify_coil_chain bloomCore
  let ph ← verify_phi bloomCore
  let ext ← verify_external_fingerprints data
  let allOk := ef.1 && ch.1 && ph.1
  let storedField ← efStoredField ef.2.1
  let gensField ← pyGet bloomCore "generations" (.arr [])
  let nCoils ← pyLen gensField
  pure
    { result := if allOk then "PASS" else "FAIL"
      eternal := ⟨ef.1, storedField, take32 ef.2.2⟩
      chain := ⟨ch.1, nCoils, ch.2.1,
        if ch.2.2.isEmpty then none else some ch.2.2⟩
      phi := ⟨ph.1, ph.2.1, TRUE_PHI, ph.2.2, PHI_TOL⟩
      external := ext
      verdict := if allOk then
          "Envelope cryptographically consistent — all checks passed"
        else
          "Envelope has integrity issues — see details above" }

/-! ## `arc_integrity.py` — seed derivation

Floating-point code is embedded over exact rationals; every constant
is the exact rational value of the double the source holds.  The
arithmetic of `fingerprint_to_seed` is exact in IEEE-754 as well
(`v % 2 ** 53` is an integer below `2 ** 53` and the division is by a
power of two), so there the model is bit-faithful. -/

/-- The default seed `0.123456789`: exact value of that double. -/
def DEFAULT_SEED : ℚ := 8895999182988127 / 72057594037927936

/-- Numeric value of one hex digit, `none` for a non-hex character. -/
def hexVal (c : Char) : Option Nat :=
  if '0' ≤ c ∧ c ≤ '9' then some (c.toNat - 48)
  else if 'a' ≤ c ∧ c ≤ 'f' then some (c.toNat - 87)
  else if 'A' ≤ c ∧ c ≤ 'F' then some (c.toNat - 55)
  else none

/-- The `int(s, 16)` on a plain string of hex digits; `none` where CPython
raises `ValueError`.  (CPython additionally tolerates surrounding
whitespace, a sign and `0x`/`_` — forms a hex digest never takes.) -/
def parseHex : List Char → Option Nat
  | [] => none
  | cs => cs.foldl (fun acc c => do pure ((← acc) * 16 + (← hexVal c))) (some 0)

/-- The `fingerprint_to_seed`: first 16 hex chars as an unsigned integer,
reduced mod `2 ** 53`, divided by `2 ** 53`; digests shorter than 16
characters (including the empty string) yield the default seed. -/
def fingerprint_to_seed (fingerprint : String) : Except PyErr ℚ :=
  if fingerprint.length < 16 then .ok DEFAULT_SEED
  else
    match parseHex (fingerprint.toList.take 16) with
    | some v => .ok ((v % 2 ^ 53 : ℕ) / (2 ^ 53 : ℚ))
    | none => .error .valueError

/-- The `blend_seeds`: zero seeds yield the default, one seed is returned
unchanged, otherwise the phi-weighted normalized sum reduced mod 1. -/
def blend_seeds (seeds : List ℚ) : ℚ :=
  match seeds with
  | [] => DEFAULT_SEED
  | [s] => s
  | _ =>
    let n := seeds.length
    let raw := (List.range n).map (fun (i : ℕ) => TRUE_PHI ^ (-(i : ℤ)))
    let total := raw.sum
    let weights := raw.map (fun w => w / total)
    let blended := ((weights.zip seeds).map (fun p => p.1 * p.2)).sum
    Int.fract blended

/-! ## `guardian_arc.py` — trajectory engine

Complex points are pairs of rationals.  The module constants
(`phi`, `lambda_phi`, `CENTERS`, `CUTS`) are embedded as the exact
rational values of the doubles the module computes at import time;
the weight sum is exactly `1.0` in IEEE-754, so `CUTS` ends in
exactly `1` both in the source and here. -/

/-- A complex number as an exact pair. -/
structure CQ where
  re : ℚ
  im : ℚ
deriving DecidableEq, Inhabited

/-- Complex addition. -/
def cadd (a b : CQ) : CQ := ⟨a.re + b.re, a.im + b.im⟩

/-- Complex subtraction. -/
def csub (a b : CQ) : CQ := ⟨a.re - b.re, a.im - b.im⟩

/-- Complex multiplication. -/
def cmul (a b : CQ) : CQ :=
  ⟨a.re * b.re - a.im * b.im, a.re * b.im + a.im * b.re⟩

/-- The `lambda_phi = exp(-1/phi + 1j*2*pi*phi)`: exact rational values of
the double components. -/
def lambda_phi : CQ :=
  ⟨-1789929093405235 / 4503599627370496, -6558886689997459 / 18014398509481984⟩

/-- The `CENTERS`: the core at the origin and the five pentagon vertices
`3.5 * exp(1j * (2*pi*k/5 + pi/2))`, exact values of the doubles. -/
def CENTERS : List CQ :=
  [⟨0, 0⟩,
   ⟨2173393950009411 / 10141204801825835211973625643008, 7 / 2⟩,
   ⟨-7495561101691487 / 2251799813685248, 4870910872513575 / 4503599627370496⟩,
   ⟨-4632511525596947 / 2251799813685248, -3188052555102985 / 1125899906842624⟩,
   ⟨289531970349809 / 140737488355328, -1594026277551493 / 562949953421312⟩,
   ⟨234236284427859 / 70368744177664, 2435455436256785 / 2251799813685248⟩]

/-- The `CUTS = cumsum(WEIGHTS / WEIGHTS.sum())`: exact values of the six
doubles (`0.3, 0.55, 0.7, 0.775, 0.85, 1.0` as computed in binary). -/
def CUTS : List ℚ :=
  [5404319552844595 / 18014398509481984,
   4953959590107546 / 9007199254740992,
   6305039478318695 / 9007199254740992,
   6980579133948559 / 9007199254740992,
   7656118789578423 / 9007199254740992,
   1]

/-- The `np.searchsorted(cuts, s)` with the default `side="left"`: the
first index whose cut is at least `s`, or the array length. -/
def searchsortedLeft (cuts : List ℚ) (s : ℚ) : Nat :=
  (cuts.findIdx? (fun c => decide (s ≤ c))).getD cuts.length

/-- One iteration of the trajectory loop: advance the equidistributed
driver `s`, select a center by weighted bucket, contract `z` toward
it. -/
def arcStep (s : ℚ) (z : CQ) : ℚ × CQ :=
  let s1 := Int.fract (s + TRUE_PHI)
  let k := searchsortedLeft CUTS s1
  let c := CENTERS.getD k ⟨0, 0⟩
  (s1, cadd (cmul lambda_phi (csub z c)) c)

/-- Record `n` successive `z` values starting from driver state `s`. -/
def arcRun : Nat → ℚ → CQ → List CQ
  | 0, _, _ => []
  | n + 1, s, z =>
    let p := arcStep s z
    p.2 :: arcRun n p.1 p.2

/-- The `guardian_arc_trajectory(n_steps, burn_in, seed)`: iterate from
`s = seed % 1.0`, `z = 0`, record every point, drop the first
`burn_in`. -/
def guardian_arc_trajectory (n_steps burn_in : Nat) (seed : ℚ) : List CQ :=
  (arcRun n_steps (Int.fract seed) ⟨0, 0⟩).drop burn_in

/-! ## Supporting lemmas -/

/-- The `arcRun` records one point per step. -/
theorem arcRun_length : ∀ (n : Nat) (s : ℚ) (z : CQ), (arcRun n s z).length = n
  | 0, _, _ => rfl
  | n + 1, s, z => by simp [arcRun, arcRun_length n]

end Bloom

namespace Bloom

/-! ## Claim C8: trajectory length and determinism -/

/-- C8: for every seed, step count and burn-in, the trajectory run
returns exactly `n_steps - burn_in` complex points (natural-number
subtraction: a burn-in larger than the step count leaves zero points,
exactly as slicing does in the source), and the run is a pure function
of `(seed, n_steps, burn_in)`: two runs with equal arguments yield
identical sequences. -/
theorem claim_C8_trajectory (seed : ℚ) (n b : Nat) :
    (guardian_arc_trajectory n b seed).length = n - b ∧
    (∀ (seed2 : ℚ) (n2 b2 : Nat), seed2 = seed → n2 = n → b2 = b →
      guardian_arc_trajectory n2 b2 seed2 = guardian_arc_trajectory n b seed) := by
  constructor
  · simp [guardian_arc_trajectory, arcRun_length]
  · intro seed2 n2 b2 h1 h2 h3
    rw [h1, h2, h3]

/-- Witness for C8 at concrete arguments. -/
theorem claim_C8_trajectory_witness :
    (guardian_arc_trajectory 3 1 (1 / 3)).length = 3 - 1 ∧
    guardian_arc_trajectory 3 1 (1 / 3) = guardian_arc_trajectory 3 1 (1 / 3) :=
  ⟨(claim_C8_trajectory (1 / 3) 3 1).1,
   (claim_C8_trajectory (1 / 3) 3 1).2 (1 / 3) 3 1 rfl rfl rfl⟩

/-! ## Claim C6: fingerprint_to_seed -/

/-- C6: on a hex digest of at least 16 characters,
`fingerprint_to_seed` returns the first 16 hex characters parsed as an
unsigned integer, reduced mod `2 ^ 53` and divided by `2 ^ 53`, a value
in `[0, 1)`; on anything shorter (including the empty or absent
digest) it returns the fixed default seed constant. -/
theorem claim_C6_fingerprint_to_seed (s : String) (v : Nat) :
    (16 ≤ s.length → parseHex (s.toList.take 16) = some v →
      fingerprint_to_seed s = .ok ((v % 2 ^ 53 : ℕ) / (2 ^ 53 : ℚ)) ∧
      0 ≤ ((v % 2 ^ 53 : ℕ) / (2 ^ 53 : ℚ)) ∧
      ((v % 2 ^ 53 : ℕ) / (2 ^ 53 : ℚ)) < 1) ∧
    (s.length < 16 → fingerprint_to_seed s = .ok DEFAULT_SEED) := by
  constructor
  · intro hlen hparse
    refine ⟨?_, ?_, ?_⟩
    · rw [fingerprint_to_seed, if_neg (by omega), hparse]
    · positivity
    · rw [div_lt_one (by positivity)]
      have hmod : (v % 2 ^ 53 : ℕ) < 2 ^ 53 := Nat.mod_lt _ (by norm_num)
      exact_mod_cast hmod
  · intro hlen
    rw [fingerprint_to_seed, if_pos hlen]

/-- Witness for C6: a 16-character hex digest and a 2-character one. -/
theorem claim_C6_fingerprint_to_seed_witness :
    (fingerprint_to_seed "00000000000000ff" = .ok ((255 % 2 ^ 53 : ℕ) / (2 ^ 53 : ℚ)) ∧
      0 ≤ ((255 % 2 ^ 53 : ℕ) / (2 ^ 53 : ℚ)) ∧
      ((255 % 2 ^ 53 : ℕ) / (2 ^ 53 : ℚ)) < 1) ∧
    fingerprint_to_seed "ab" = .ok DEFAULT_SEED :=
  ⟨(claim_C6_fingerprint_to_seed "00000000000000ff" 255).1 (by decide) (by decide),
   (claim_C6_fingerprint_to_seed "ab" 0).2 (by decide)⟩

/-! ## Claim C7: blend_seeds -/

/-- Folding a map over `List.range` is a `Finset.range` sum. -/
theorem range_map_sum (f : ℕ → ℚ) (n : ℕ) :
    ((List.range n).map f).sum = ∑ i in Finset.range n, f i := by
  induction n with
  | zero => simp
  | succ n ih => rw [List.range_succ, Finset.sum_range_succ]; simp [ih]

/-- The zipped weighted sum of `blend_seeds` as an indexed sum. -/
theorem zip_weight_sum (l : List ℚ) :
    ∀ g : ℕ → ℚ,
      ((((List.range l.length).map g).zip l).map (fun p => p.1 * p.2)).sum
        = ∑ i in Finset.range l.length, g i * l.getD i 0 := by
  induction l with
  | nil => simp
  | cons a t ih =>
    intro g
    rw [List.length_cons, List.range_succ_eq_map, Finset.sum_range_succ']
    simp only [List.map_cons, List.map_map, List.zip_cons_cons, List.map, List.sum_cons,
      List.getD_cons_succ, List.getD_cons_zero]
    rw [add_comm (g 0 * a)]
    exact congrArg (fun x => x + g 0 * a) (ih (fun i => g (i + 1)))

/-- C7: `blend_seeds` returns the default seed on no seeds and a
single seed unchanged; on two or more seeds, each in `[0, 1)`, it
returns the phi-weighted sum — weights proportional to
`TRUE_PHI ^ (-i)` and normalized to total `1` — reduced modulo `1`,
and the result lies in `[0, 1)`. -/
theorem claim_C7_blend_seeds :
    blend_seeds [] = DEFAULT_SEED ∧
    (∀ s : ℚ, blend_seeds [s] = s) ∧
    (∀ seeds : List ℚ, 2 ≤ seeds.length → (∀ x ∈ seeds, 0 ≤ x ∧ x < 1) →
      (blend_seeds seeds =
        Int.fract (∑ i in Finset.range seeds.length,
          (TRUE_PHI ^ (-(i : ℤ)) /
            ∑ j in Finset.range seeds.length, TRUE_PHI ^ (-(j : ℤ))) * seeds.getD i 0)) ∧
      (∑ i in Finset.range seeds.length,
          TRUE_PHI ^ (-(i : ℤ)) / ∑ j in Finset.range seeds.length, TRUE_PHI ^ (-(j : ℤ))) = 1 ∧
      0 ≤ blend_seeds seeds ∧ blend_seeds seeds < 1) := by
  have hphi : (0 : ℚ) < TRUE_PHI := by norm_num [TRUE_PHI]
  refine ⟨rfl, fun s => rfl, fun seeds hlen _hrange => ?_⟩
  have htotal : ∀ n : ℕ, 0 < n →
      (0 : ℚ) < ∑ j in Finset.range n, TRUE_PHI ^ (-(j : ℤ)) := by
    intro n hn
    apply Finset.sum_pos
    · intro i _
      exact zpow_pos hphi _
    · exact Finset.nonempty_range_iff.mpr (by omega)
  obtain ⟨a, t, rfl⟩ : ∃ a t, seeds = a :: t := by
    cases seeds with
    | nil => simp at hlen
    | cons a t => exact ⟨a, t, rfl⟩
  obtain ⟨b, u, rfl⟩ : ∃ b u, t = b :: u := by
    cases t with
    | nil => simp at hlen
    | cons b u => exact ⟨b, u, rfl⟩
  have hblend : blend_seeds (a :: b :: u) =
      Int.fract (∑ i in Finset.range (a :: b :: u).length,
        (TRUE_PHI ^ (-(i : ℤ)) /
          ∑ j in Finset.range (a :: b :: u).length, TRUE_PHI ^ (-(j : ℤ))) *
          (a :: b :: u).getD i 0) := by
    have h1 := zip_weight_sum (a :: b :: u)
      (fun i => TRUE_PHI ^ (-(i : ℤ)) /
        ((List.range (a :: b :: u).length).map
          (fun (i : ℕ) => TRUE_PHI ^ (-(i : ℤ)))).sum)
    rw [blend_seeds]
    congr 1
    rw [List.map_map]
    refine h1.trans ?_
    rw [range_map_sum (fun (i : ℕ) => TRUE_PHI ^ (-(i : ℤ)))]
    all_goals simp
  refine ⟨hblend, ?_, ?_, ?_⟩
  · rw [← Finset.sum_div]
    exact div_self (ne_of_gt (htotal _ (by simp)))
  · rw [hblend]; exact Int.fract_nonneg _
  · rw [hblend]; exact Int.fract_lt_one _

/-- Witness for C7 on the two-seed list `[1/2, 1/4]`. -/
theorem claim_C7_blend_seeds_witness :
    blend_seeds [] = DEFAULT_SEED ∧
    blend_seeds [(1 : ℚ) / 2] = 1 / 2 ∧
    (0 ≤ blend_seeds [(1 : ℚ) / 2, 1 / 4] ∧ blend_seeds [(1 : ℚ) / 2, 1 / 4] < 1) :=
  have hmem : ∀ x ∈ [(1 : ℚ) / 2, 1 / 4], 0 ≤ x ∧ x < 1 := by
    intro x hx
    simp only [List.mem_cons, List.mem_singleton, List.not_mem_nil, or_false] at hx
    rcases hx with h | h <;> subst h <;> norm_num
  ⟨claim_C7_blend_seeds.1,
   claim_C7_blend_seeds.2.1 (1 / 2),
   ⟨(claim_C7_blend_seeds.2.2 [(1 : ℚ) / 2, 1 / 4] (by norm_num) hmem).2.2.1,
    (claim_C7_blend_seeds.2.2 [(1 : ℚ) / 2, 1 / 4] (by norm_num) hmem).2.2.2⟩⟩

/-! ## Claim C5: verify_phi -/

/-- The exact rational value of the double `TRUE_PHI + 1e-6`
(IEEE-754 addition rounds; the subsequent subtraction of two doubles
within a factor of two of each other is exact, so the model's exact
`delta` equals the source's floating-point `delta` here). -/
def PHI_PLUS_MICRO : ℚ := 7286981772406451 / 4503599627370496

/-- C5: `verify_phi` reports `ok` exactly when
`|observed - TRUE_PHI| < PHI_TOL` (with `TRUE_PHI` the double
`(1 + 5 ** 0.5) / 2` and `PHI_TOL` the double `1e-9`); observing
exactly `TRUE_PHI` yields `ok = true` with `delta = 0`, and observing
the double `TRUE_PHI + 1e-6` yields `ok = false`. -/
theorem claim_C5_verify_phi (core : List (String × JValue)) (q : ℚ)
    (h : jlookup core "phi_ratio_observed" = some (.num q)) :
    verify_phi (.obj core)
      = .ok (decide (|q - TRUE_PHI| < PHI_TOL), .num q, |q - TRUE_PHI|) ∧
    (q = TRUE_PHI → verify_phi (.obj core) = .ok (true, .num q, 0)) ∧
    (q = PHI_PLUS_MICRO →
      verify_phi (.obj core) = .ok (false, .num q, |q - TRUE_PHI|)) := by
  have hbase : verify_phi (.obj core)
      = .ok (decide (|q - TRUE_PHI| < PHI_TOL), .num q, |q - TRUE_PHI|) := by
    simp [verify_phi, pyGet, h, pyToNum, bind, Except.bind, pure, Except.pure]
  refine ⟨hbase, ?_, ?_⟩
  · intro hq
    subst hq
    rw [hbase]
    norm_num [PHI_TOL]
  · intro hq
    subst hq
    rw [hbase]
    have : ¬ (|PHI_PLUS_MICRO - TRUE_PHI| < PHI_TOL) := by
      rw [abs_of_nonneg (by norm_num [PHI_PLUS_MICRO, TRUE_PHI])]
      norm_num [PHI_PLUS_MICRO, TRUE_PHI, PHI_TOL]
    simp [this]

/-- Witness for C5 at the two test points named by the claim. -/
theorem claim_C5_verify_phi_witness :
    verify_phi (.obj [("phi_ratio_observed", .num TRUE_PHI)])
      = .ok (true, .num TRUE_PHI, 0) ∧
    verify_phi (.obj [("phi_ratio_observed", .num PHI_PLUS_MICRO)])
      = .ok (false, .num PHI_PLUS_MICRO, |PHI_PLUS_MICRO - TRUE_PHI|) :=
  ⟨(claim_C5_verify_phi [("phi_ratio_observed", .num TRUE_PHI)] TRUE_PHI rfl).2.1 rfl,
   (claim_C5_verify_phi [("phi_ratio_observed", .num PHI_PLUS_MICRO)]
      PHI_PLUS_MICRO rfl).2.2 rfl⟩

/-! ## Claim C4: eternal fingerprint round trip -/

/-- C4: for every BloomCore object whose `eternal_fingerprint` equals
the SHA3-512 lowercase-hex digest of the canonical serialization
(keys sorted, compact separators) of all its other fields,
`verify_eternal_fingerprint` reports `ok = true` and echoes the stored
digest; recomputing over the unmodified core again yields that same
stored digest. -/
theorem claim_C4_eternal_roundtrip (kvs : List (String × JValue)) (d : String)
    (h : jlookup kvs "eternal_fingerprint" = some (.str d))
    (hd : d = sha3_json (.obj (kvs.filter (fun kv => !(kv.1 == "eternal_fingerprint"))))) :
    verify_eternal_fingerprint (.obj kvs) = .ok (true, .str d, d) ∧
    sha3_json (.obj (kvs.filter (fun kv => !(kv.1 == "eternal_fingerprint")))) = d := by
  constructor
  · rw [verify_eternal_fingerprint]
    rw [h]
    rw [Option.getD_some]
    rw [← hd]
    have hor : (if pyTruthy (.str d) then JValue.str d else .str "") = .str d := by
      by_cases hcase : pyTruthy (.str d) = true
      · rw [if_pos hcase]
      · rw [if_neg hcase]
        have hlen : d.length = 0 := by
          simp [pyTruthy] at hcase
          exact hcase
        have : d = "" := by
          cases hstr : d with
          | mk data =>
            subst hstr
            cases data with
            | nil => rfl
            | cons c cs => simp [String.length, List.length] at hlen
        rw [this]
    rw [hor]
    have heq : pyEq (.str d) (.str d) = true := by
      simp [pyEq]
    rw [heq]
  · exact hd.symm

/-- The fields of the concrete witness core, digest excluded. -/
def c4rest : List (String × JValue) :=
  [("genesis", .str "T"), ("resonance_hz", .num 963),
   ("generations", .arr [])]

/-- The digest of the witness core, computed by the model itself. -/
def c4digest : String := sha3_json (.obj c4rest)

/-- Witness for C4: a concrete self-consistent core verifies. -/
theorem claim_C4_eternal_roundtrip_witness :
    verify_eternal_fingerprint
        (.obj (("eternal_fingerprint", .str c4digest) :: c4rest))
      = .ok (true, .str c4digest, c4digest) ∧
    sha3_json (.obj ((("eternal_fingerprint", .str c4digest) :: c4rest).filter
        (fun kv => !(kv.1 == "eternal_fingerprint")))) = c4digest :=
  claim_C4_eternal_roundtrip (("eternal_fingerprint", .str c4digest) :: c4rest)
    c4digest rfl rfl

/-! ## Chain claims: infrastructure -/

/-- A well-formed generation entry at position `i`. -/
def mkGen (i : Nat) (fp : String) : JValue :=
  .obj [("coil", .num i), ("fingerprint", .str fp)]

/-- Generation entries for a fingerprint list, indices from `i`. -/
def mkGens : Nat → List String → List JValue
  | _, [] => []
  | i, fp :: rest => mkGen i fp :: mkGens (i + 1) rest

/-- The `coil` field of a diagnostic record. -/
def detailCoil : Detail → JValue
  | .indexMismatch c _ _ => c
  | .invalidFormat c _ => c
  | .mismatch c _ _ => c

/-- Position `i` of the chain carries exactly the fingerprint the
recurrence demands, with positional parents. -/
def goodAt (genesis : String) (fps : List String) (i : Nat) : Prop :=
  fps.getD i "" = fibonacci_fingerprint (.str genesis)
    (chainParents i (fps.map .str)).1 (chainParents i (fps.map .str)).2

/-- Every position satisfies the recurrence. -/
def validChain (genesis : String) (fps : List String) : Prop :=
  ∀ i, i < fps.length → goodAt genesis fps i

/-- Every stored fingerprint is a well-formed 128-hex-char string. -/
def allValidHex (fps : List String) : Prop :=
  ∀ i, i < fps.length → is_valid_sha3_hex (.str (fps.getD i "")) = true

/-- The `getD` below the `take` bound reads the original list. -/
theorem getD_take {α : Type} (d : α) :
    ∀ (l : List α) (j i : Nat), i < j → (l.take j).getD i d = l.getD i d := by
  intro l
  induction l with
  | nil => intro j i _; simp
  | cons a t ih =>
    intro j i hij
    cases j with
    | zero => omega
    | succ j =>
      cases i with
      | zero => simp
      | succ i =>
        simp only [List.take_succ_cons, List.getD_cons_succ]
        exact ih j i (by omega)

/-- Taking one more element appends the `getD` value. -/
theorem take_succ_getD {α : Type} (d : α) :
    ∀ (l : List α) (j : Nat), j < l.length →
      l.take (j + 1) = l.take j ++ [l.getD j d] := by
  intro l
  induction l with
  | nil => intro j h; simp at h
  | cons a t ih =>
    intro j h
    cases j with
    | zero => simp
    | succ j =>
      simp only [List.take_succ_cons, List.getD_cons_succ, List.cons_append]
      rw [ih j (by simpa using h)]

/-- Dropping at an in-range index exposes the `getD` value. -/
theorem drop_getD_cons {α : Type} (d : α) :
    ∀ (l : List α) (j : Nat), j < l.length →
      l.drop j = l.getD j d :: l.drop (j + 1) := by
  intro l
  induction l with
  | nil => intro j h; simp at h
  | cons a t ih =>
    intro j h
    cases j with
    | zero => simp
    | succ j =>
      simp only [List.drop_succ_cons, List.getD_cons_succ]
      exact ih j (by simpa using h)

/-- The `set` does not change other positions. -/
theorem getD_set_ne {α : Type} (d : α) (x : α) :
    ∀ (l : List α) (k i : Nat), k ≠ i → (l.set k x).getD i d = l.getD i d := by
  intro l
  induction l with
  | nil => intro k i _; simp
  | cons a t ih =>
    intro k i hne
    cases k with
    | zero =>
      cases i with
      | zero => omega
      | succ i => simp
    | succ k =>
      cases i with
      | zero => simp
      | succ i =>
        show (a :: t.set k x).getD (i + 1) d = (a :: t).getD (i + 1) d
        simp only [List.getD_cons_succ]
        exact ih k i (by omega)

/-- The positional parents only read indices below `i`, so any `take`
of at least `i` elements gives the same parents. -/
theorem chainParents_take (fps : List JValue) (i j : Nat)
    (hij : i ≤ j) :
    chainParents i (fps.take j) = chainParents i fps := by
  match i, hij with
  | 0, _ => simp [chainParents]
  | 1, hij =>
    simp only [chainParents, if_neg (by omega : ¬(1 : Nat) = 0), if_pos rfl]
    rw [getD_take _ fps j 0 (by omega)]
  | (i + 2), hij =>
    simp only [chainParents, if_neg (by omega : ¬i + 2 = 0),
      if_neg (by omega : ¬i + 2 = 1)]
    rw [getD_take _ fps j (i + 2 - 2) (by omega),
      getD_take _ fps j (i + 2 - 1) (by omega)]

/-- The `mkGens` distributes over append. -/
theorem mkGens_append :
    ∀ (l1 l2 : List String) (i : Nat),
      mkGens i (l1 ++ l2) = mkGens i l1 ++ mkGens (i + l1.length) l2 := by
  intro l1
  induction l1 with
  | nil => intro l2 i; simp [mkGens]
  | cons a t ih =>
    intro l2 i
    show mkGen i a :: mkGens (i + 1) (t ++ l2)
        = mkGen i a :: (mkGens (i + 1) t ++ mkGens (i + (a :: t).length) l2)
    rw [ih l2 (i + 1)]
    have harith : i + 1 + t.length = i + (a :: t).length := by
      simp only [List.length_cons]
      omega
    rw [harith]

/-- The `pyEq` is reflexive on numbers. -/
theorem pyEq_num_self (q : ℚ) : pyEq (.num q) (.num q) = true := by
  simp [pyEq]

/-- The `pyEq` on strings is string equality. -/
theorem pyEq_str (a b : String) : pyEq (.str a) (.str b) = (a == b) := by
  simp [pyEq]

/-- One `chainGo` step on a well-formed entry whose fingerprint is
valid hex and matches the recurrence: no diagnostics, the fingerprint
joins the accumulator. -/
theorem chainGo_cons_valid_eq (g : JValue) (j : Nat) (a : String)
    (rest : List JValue) (bad : List JValue) (det : List Detail)
    (fps : List JValue)
    (hval : is_valid_sha3_hex (.str a) = true)
    (heq : (a == fibonacci_fingerprint g (chainParents j fps).1
      (chainParents j fps).2) = true) :
    chainGo g (mkGen j a :: rest) j bad det fps
      = chainGo g rest (j + 1) bad det (fps ++ [.str a]) := by
  have hc : jlookup [("coil", JValue.num (j : ℚ)),
      ("fingerprint", JValue.str a)] "coil" = some (.num (j : ℚ)) := rfl
  have hf : jlookup [("coil", JValue.num (j : ℚ)),
      ("fingerprint", JValue.str a)] "fingerprint" = some (.str a) := rfl
  simp only [chainGo, mkGen, hc, hf, Option.getD_some, pyEq_num_self,
    if_true, hval, pyEq_str, heq, if_pos]

/-- One `chainGo` step on a well-formed entry whose fingerprint is
valid hex but disagrees with the recurrence: the position is flagged
`fingerprint_mismatch`, the stored value still joins the accumulator. -/
theorem chainGo_cons_valid_ne (g : JValue) (j : Nat) (a : String)
    (rest : List JValue) (bad : List JValue) (det : List Detail)
    (fps : List JValue)
    (hval : is_valid_sha3_hex (.str a) = true)
    (hne : (a == fibonacci_fingerprint g (chainParents j fps).1
      (chainParents j fps).2) = false) :
    chainGo g (mkGen j a :: rest) j bad det fps
      = chainGo g rest (j + 1) (bad ++ [.num j])
          (det ++ [.mismatch (.num j)
            (take32 (fibonacci_fingerprint g (chainParents j fps).1
              (chainParents j fps).2)) (take32 a)])
          (fps ++ [.str a]) := by
  have hc : jlookup [("coil", JValue.num (j : ℚ)),
      ("fingerprint", JValue.str a)] "coil" = some (.num (j : ℚ)) := rfl
  have hf : jlookup [("coil", JValue.num (j : ℚ)),
      ("fingerprint", JValue.str a)] "fingerprint" = some (.str a) := rfl
  simp only [chainGo, mkGen, hc, hf, Option.getD_some, pyEq_num_self,
    if_true, hval, pyEq_str, hne, if_pos, Bool.false_eq_true, if_false]

/-- One `chainGo` step on a well-formed entry whose fingerprint fails
the 128-hex format check: flagged `invalid_fingerprint_format`, no
recomputation, and the invalid value still joins the accumulator. -/
theorem chainGo_cons_invalid (g : JValue) (j : Nat) (a : String)
    (rest : List JValue) (bad : List JValue) (det : List Detail)
    (fps : List JValue)
    (hval : is_valid_sha3_hex (.str a) = false) :
    chainGo g (mkGen j a :: rest) j bad det fps
      = chainGo g rest (j + 1) (bad ++ [.num j])
          (det ++ [.invalidFormat (.num j) a.length])
          (fps ++ [.str a]) := by
  have hc : jlookup [("coil", JValue.num (j : ℚ)),
      ("fingerprint", JValue.str a)] "coil" = some (.num (j : ℚ)) := rfl
  have hf : jlookup [("coil", JValue.num (j : ℚ)),
      ("fingerprint", JValue.str a)] "fingerprint" = some (.str a) := rfl
  simp only [chainGo, mkGen, hc, hf, Option.getD_some, pyEq_num_self,
    if_true, hval, Bool.false_eq_true, if_false, pyLen]

/-- A segment of `m` positions that all satisfy the recurrence passes
through `chainGo` without diagnostics, extending the fingerprint
accumulator. -/
theorem chainGo_good_seg (g : String) (fps : List String)
    (hv : validChain g fps) (hh : allValidHex fps) :
    ∀ (m j : Nat) (suffix : List JValue) (bad : List JValue) (det : List Detail),
      j + m ≤ fps.length →
      chainGo (.str g) (mkGens j ((fps.drop j).take m) ++ suffix) j bad det
        ((fps.take j).map .str)
        = chainGo (.str g) suffix (j + m) bad det ((fps.take (j + m)).map .str) := by
  intro m
  induction m with
  | zero => intro j suffix bad det h; simp [mkGens]
  | succ m ih =>
    intro j suffix bad det h
    have hj : j < fps.length := by omega
    rw [drop_getD_cons "" fps j hj]
    rw [List.take_succ_cons]
    have hstep := chainGo_cons_valid_eq (.str g) j (fps.getD j "")
      (mkGens (j + 1) ((fps.drop (j + 1)).take m) ++ suffix) bad det
      ((fps.take j).map .str)
      (hh j hj)
      (by
        have hgood := hv j hj
        rw [goodAt] at hgood
        have hpar : chainParents j ((fps.take j).map JValue.str)
            = chainParents j (fps.map JValue.str) := by
          rw [List.map_take]
          exact chainParents_take (fps.map .str) j j le_rfl
        rw [hpar, ← hgood]
        simp)
    show chainGo (.str g)
        (mkGen j (fps.getD j "") :: (mkGens (j + 1) ((fps.drop (j + 1)).take m) ++ suffix))
        j bad det ((fps.take j).map .str)
        = chainGo (.str g) suffix (j + (m + 1)) bad det
          ((fps.take (j + (m + 1))).map .str)
    rw [hstep]
    have hacc : (fps.take j).map JValue.str ++ [JValue.str (fps.getD j "")]
        = (fps.take (j + 1)).map JValue.str := by
      rw [take_succ_getD "" fps j hj, List.map_append]
      rfl
    rw [hacc]
    rw [ih (j + 1) suffix bad det (by omega)]
    have harith : j + 1 + m = j + (m + 1) := by omega
    rw [harith]

/-- Processing any fingerprint list from position `j` always succeeds,
only appends to the accumulators, and every appended diagnostic or bad
index carries a coil number at least `j`. -/
theorem chainGo_mkGens_ok (g : JValue) :
    ∀ (l : List String) (j : Nat) (bad : List JValue) (det : List Detail)
      (fps : List JValue),
      ∃ badS detS fpsS,
        chainGo g (mkGens j l) j bad det fps
          = .ok (bad ++ badS, det ++ detS, fps ++ fpsS) ∧
        (∀ x ∈ badS, ∃ m : ℕ, x = JValue.num (m : ℚ) ∧ j ≤ m) ∧
        (∀ dd ∈ detS, ∃ m : ℕ, detailCoil dd = JValue.num (m : ℚ) ∧ j ≤ m) := by
  intro l
  induction l with
  | nil =>
    intro j bad det fps
    exact ⟨[], [], [], by simp [mkGens, chainGo], by simp, by simp⟩
  | cons a t ih =>
    intro j bad det fps
    by_cases hval : is_valid_sha3_hex (.str a) = true
    · by_cases heq : (a == fibonacci_fingerprint g (chainParents j fps).1
          (chainParents j fps).2) = true
      · obtain ⟨bS, dS, fS, hgo, hb, hd⟩ := ih (j + 1) bad det (fps ++ [.str a])
        refine ⟨bS, dS, .str a :: fS, ?_, ?_, ?_⟩
        · show chainGo g (mkGen j a :: mkGens (j + 1) t) j bad det fps = _
          rw [chainGo_cons_valid_eq g j a _ bad det fps hval heq, hgo]
          rw [List.append_assoc]
          rfl
        · intro x hx
          obtain ⟨m, hm, hjm⟩ := hb x hx
          exact ⟨m, hm, by omega⟩
        · intro dd hdd
          obtain ⟨m, hm, hjm⟩ := hd dd hdd
          exact ⟨m, hm, by omega⟩
      · obtain ⟨bS, dS, fS, hgo, hb, hd⟩ := ih (j + 1) (bad ++ [.num j])
          (det ++ [.mismatch (.num j)
            (take32 (fibonacci_fingerprint g (chainParents j fps).1
              (chainParents j fps).2)) (take32 a)]) (fps ++ [.str a])
        refine ⟨.num j :: bS, .mismatch (.num j)
            (take32 (fibonacci_fingerprint g (chainParents j fps).1
              (chainParents j fps).2)) (take32 a) :: dS, .str a :: fS, ?_, ?_, ?_⟩
        · show chainGo g (mkGen j a :: mkGens (j + 1) t) j bad det fps = _
          rw [chainGo_cons_valid_ne g j a _ bad det fps hval
            (by simpa using heq), hgo]
          rw [List.append_assoc, List.append_assoc, List.append_assoc]
          rfl
        · intro x hx
          rcases List.mem_cons.mp hx with hx | hx
          · exact ⟨j, hx, le_rfl⟩
          · obtain ⟨m, hm, hjm⟩ := hb x hx
            exact ⟨m, hm, by omega⟩
        · intro dd hdd
          rcases List.mem_cons.mp hdd with hdd | hdd
          · exact ⟨j, by rw [hdd]; rfl, le_rfl⟩
          · obtain ⟨m, hm, hjm⟩ := hd dd hdd
            exact ⟨m, hm, by omega⟩
    · obtain ⟨bS, dS, fS, hgo, hb, hd⟩ := ih (j + 1) (bad ++ [.num j])
        (det ++ [.invalidFormat (.num j) a.length]) (fps ++ [.str a])
      refine ⟨.num j :: bS, .invalidFormat (.num j) a.length :: dS,
        .str a :: fS, ?_, ?_, ?_⟩
      · show chainGo g (mkGen j a :: mkGens (j + 1) t) j bad det fps = _
        rw [chainGo_cons_invalid g j a _ bad det fps
          (by simpa using hval), hgo]
        rw [List.append_assoc, List.append_assoc, List.append_assoc]
        rfl
      · intro x hx
        rcases List.mem_cons.mp hx with hx | hx
        · exact ⟨j, hx, le_rfl⟩
        · obtain ⟨m, hm, hjm⟩ := hb x hx
          exact ⟨m, hm, by omega⟩
      · intro dd hdd
        rcases List.mem_cons.mp hdd with hdd | hdd
        · exact ⟨j, by rw [hdd]; rfl, le_rfl⟩
        · obtain ⟨m, hm, hjm⟩ := hd dd hdd
          exact ⟨m, hm, by omega⟩

/-- The `mkGens` preserves length. -/
theorem mkGens_length : ∀ (l : List String) (j : Nat), (mkGens j l).length = l.length := by
  intro l
  induction l with
  | nil => intro j; rfl
  | cons a t ih => intro j; simp [mkGens, ih]

/-- A BloomCore carrying exactly a genesis salt and a generation list. -/
def chainCore (genesis : String) (gens : List JValue) : JValue :=
  .obj [("genesis", .str genesis), ("generations", .arr gens)]

/-- On a nonempty generation list, `verify_coil_chain` is the loop
followed by the final verdict packaging. -/
theorem verify_chainCore_ne (genesis : String) (gens : List JValue)
    (hne : gens ≠ []) :
    verify_coil_chain (chainCore genesis gens)
      = Except.bind (chainGo (.str genesis) gens 0 [] [] [])
          (fun r => Except.ok (r.1.length == 0, r.1, r.2.1)) := by
  obtain ⟨x, xs, rfl⟩ : ∃ x xs, gens = x :: xs := by
    cases gens with
    | nil => exact absurd rfl hne
    | cons x xs => exact ⟨x, xs, rfl⟩
  have h1 : pyGet (chainCore genesis (x :: xs)) "generations" (.arr [])
      = .ok (.arr (x :: xs)) := rfl
  have h2 : pyGet (chainCore genesis (x :: xs)) "genesis"
      (.str GENESIS_TIMESTAMP) = .ok (.str genesis) := rfl
  simp only [verify_coil_chain, h1, h2, bind, Except.bind, pyTruthy,
    List.isEmpty_cons, Bool.not_false, if_true, pyIter, pure, Except.pure]

/-- Explicitly empty `generations` verifies trivially (falsy list). -/
theorem verify_chain_empty_gens (kvs : List (String × JValue))
    (h : jlookup kvs "generations" = some (.arr [])) :
    verify_coil_chain (.obj kvs) = .ok (true, [], []) := by
  simp only [verify_coil_chain, pyGet, h, Option.getD_some, bind,
    Except.bind, pyTruthy, List.isEmpty_nil, Bool.not_true,
    Bool.false_eq_true, if_false, pure, Except.pure]

/-- C3: corrupting the stored fingerprint of position `k` of a valid,
well-formed chain of length at least two makes `verify_coil_chain`
fail with `k` among the bad coils while every diagnostic concerns a
position at least `k` (positions `0 .. k-1` stay silent); and a
document whose `generations` list is empty verifies trivially. -/
theorem claim_C3_single_corruption (genesis : String) (fps : List String)
    (k : Nat) (s : String)
    (hv : validChain genesis fps) (hh : allValidHex fps)
    (hN : 2 ≤ fps.length) (hk : k < fps.length) (hs : s ≠ fps.getD k "") :
    (∃ bad det,
      verify_coil_chain (chainCore genesis (mkGens 0 (fps.set k s)))
        = .ok (false, bad, det) ∧
      JValue.num (k : ℚ) ∈ bad ∧
      (∀ dd ∈ det, ∃ m : ℕ, detailCoil dd = JValue.num (m : ℚ) ∧ k ≤ m)) ∧
    (∀ kvs : List (String × JValue),
      jlookup kvs "generations" = some (.arr []) →
      verify_coil_chain (.obj kvs) = .ok (true, [], [])) := by
  refine ⟨?_, fun kvs h => verify_chain_empty_gens kvs h⟩
  have hlen_set : (fps.set k s).length = fps.length := by simp
  have hne : mkGens 0 (fps.set k s) ≠ [] := by
    intro hcon
    have hl : (mkGens 0 (fps.set k s)).length = 0 := by rw [hcon]; rfl
    rw [mkGens_length, hlen_set] at hl
    omega
  rw [verify_chainCore_ne genesis _ hne]
  have hsplit : fps.set k s = fps.take k ++ s :: fps.drop (k + 1) :=
    List.set_eq_take_cons_drop s hk
  rw [hsplit, mkGens_append]
  have hlen_take : (fps.take k).length = k := by
    simp [List.length_take]
    omega
  rw [hlen_take]
  have hgood := chainGo_good_seg genesis fps hv hh k 0
    (mkGens (0 + k) (s :: fps.drop (k + 1))) [] [] (by omega)
  simp only [List.drop_zero, List.take_zero, List.map_nil, Nat.zero_add] at hgood ⊢
  have hpar : chainParents k ((fps.take k).map JValue.str)
      = chainParents k (fps.map JValue.str) := by
    rw [List.map_take]
    exact chainParents_take _ k k le_rfl
  have hexp : fibonacci_fingerprint (.str genesis)
      (chainParents k ((fps.take k).map JValue.str)).1
      (chainParents k ((fps.take k).map JValue.str)).2 = fps.getD k "" := by
    rw [hpar]
    have hg := hv k hk
    rw [goodAt] at hg
    exact hg.symm
  by_cases hvalS : is_valid_sha3_hex (.str s) = true
  · have hne2 : (s == fibonacci_fingerprint (.str genesis)
        (chainParents k ((fps.take k).map JValue.str)).1
        (chainParents k ((fps.take k).map JValue.str)).2) = false := by
      rw [hexp]
      exact beq_eq_false_iff_ne.mpr hs
    have hstep := chainGo_cons_valid_ne (.str genesis) k s
      (mkGens (k + 1) (fps.drop (k + 1))) [] [] ((fps.take k).map JValue.str)
      hvalS hne2
    obtain ⟨bS, dS, fS, hgo, hb, hd⟩ := chainGo_mkGens_ok (.str genesis)
      (fps.drop (k + 1)) (k + 1) ([] ++ [.num k])
      ([] ++ [.mismatch (.num k)
        (take32 (fibonacci_fingerprint (.str genesis)
          (chainParents k ((fps.take k).map JValue.str)).1
          (chainParents k ((fps.take k).map JValue.str)).2)) (take32 s)])
      ((fps.take k).map JValue.str ++ [.str s])
    refine ⟨([] ++ [JValue.num (k : ℚ)]) ++ bS,
      ([] ++ [Detail.mismatch (.num k)
        (take32 (fibonacci_fingerprint (.str genesis)
          (chainParents k ((fps.take k).map JValue.str)).1
          (chainParents k ((fps.take k).map JValue.str)).2)) (take32 s)]) ++ dS,
      ?_, ?_, ?_⟩
    · rw [hgood]
      show Except.bind (chainGo (.str genesis)
          (mkGen k s :: mkGens (k + 1) (fps.drop (k + 1))) k [] []
          ((fps.take k).map JValue.str)) _ = _
      rw [hstep, hgo]
      simp only [List.nil_append, List.singleton_append, List.length_cons,
        bind, Except.bind]
      have : (bS.length + 1 == 0) = false := by simp
      rw [this]
    · simp
    · intro dd hdd
      simp only [List.nil_append, List.singleton_append, List.mem_cons] at hdd
      rcases hdd with hdd | hdd
      · exact ⟨k, by rw [hdd]; rfl, le_rfl⟩
      · obtain ⟨m, hm, hjm⟩ := hd dd hdd
        exact ⟨m, hm, by omega⟩
  · have hstep := chainGo_cons_invalid (.str genesis) k s
      (mkGens (k + 1) (fps.drop (k + 1))) [] [] ((fps.take k).map JValue.str)
      (by simpa using hvalS)
    obtain ⟨bS, dS, fS, hgo, hb, hd⟩ := chainGo_mkGens_ok (.str genesis)
      (fps.drop (k + 1)) (k + 1) ([] ++ [.num k])
      ([] ++ [.invalidFormat (.num k) s.length])
      ((fps.take k).map JValue.str ++ [.str s])
    refine ⟨([] ++ [JValue.num (k : ℚ)]) ++ bS,
      ([] ++ [Detail.invalidFormat (.num k) s.length]) ++ dS, ?_, ?_, ?_⟩
    · rw [hgood]
      show Except.bind (chainGo (.str genesis)
          (mkGen k s :: mkGens (k + 1) (fps.drop (k + 1))) k [] []
          ((fps.take k).map JValue.str)) _ = _
      rw [hstep, hgo]
      simp only [List.nil_append, List.singleton_append, List.length_cons,
        bind, Except.bind]
      have : (bS.length + 1 == 0) = false := by simp
      rw [this]
    · simp
    · intro dd hdd
      simp only [List.nil_append, List.singleton_append, List.mem_cons] at hdd
      rcases hdd with hdd | hdd
      · exact ⟨k, by rw [hdd]; rfl, le_rfl⟩
      · obtain ⟨m, hm, hjm⟩ := hd dd hdd
        exact ⟨m, hm, by omega⟩

/-- Every hex digit produced by `hexDigit` is a hex character. -/
theorem isHexChar_hexDigit (n : Nat) : isHexChar (hexDigit n) = true := by
  rw [hexDigit]
  rcases Nat.lt_or_ge n 16 with h | h
  · interval_cases n <;> decide
  · rw [List.getD_eq_default]
    · decide
    · have hl : (String.toList "0123456789abcdef").length = 16 := rfl
      omega

/-- The hex encoding of a byte list has two characters per byte. -/
theorem join_byteToHex_length :
    ∀ bs : List Nat, ((bs.map byteToHex).join).length = 2 * bs.length := by
  intro bs
  induction bs with
  | nil => rfl
  | cons b rest ih =>
    show (byteToHex b ++ (rest.map byteToHex).join).length = 2 * (rest.length + 1)
    rw [List.length_append, ih, show (byteToHex b).length = 2 from rfl]
    omega

/-- Every character of a hex encoding is a hex character. -/
theorem join_byteToHex_hex :
    ∀ bs : List Nat, ∀ c ∈ (bs.map byteToHex).join, isHexChar c = true := by
  intro bs
  induction bs with
  | nil =>
    intro c hc
    exact absurd hc (List.not_mem_nil c)
  | cons b rest ih =>
    intro c hc
    have hc2 : c ∈ byteToHex b ++ (rest.map byteToHex).join := hc
    rcases List.mem_append.mp hc2 with hc | hc
    · rw [show byteToHex b = [hexDigit (b / 16 % 16), hexDigit (b % 16)]
        from rfl] at hc
      rcases List.mem_cons.mp hc with h | h
      · rw [h]; exact isHexChar_hexDigit _
      · rcases List.mem_cons.mp h with h | h
        · rw [h]; exact isHexChar_hexDigit _
        · exact absurd h (List.not_mem_nil c)
    · exact ih c hc

/-- The squeeze phase reads exactly `n` bytes. -/
theorem lanesToBytes_length (A : List Nat) (n : Nat) :
    (lanesToBytes A n).length = n := by
  simp [lanesToBytes]

/-- A SHA3-512 digest string always has 128 characters. -/
theorem sha3_str_length (s : String) : (sha3_512_hex_str s).length = 128 := by
  show ((((lanesToBytes (keccakAbsorb (sha3Pad (strBytes s))) 64).map
    byteToHex).join) : List Char).length = 128
  rw [join_byteToHex_length, lanesToBytes_length]

/-- A SHA3-512 digest string always passes the 128-hex format check. -/
theorem sha3_valid_hex (s : String) :
    is_valid_sha3_hex (.str (sha3_512_hex_str s)) = true := by
  have h1 : ((sha3_512_hex_str s).length == 128) = true := by
    rw [sha3_str_length]
    rfl
  have h2 : ((sha3_512_hex_str s).toList.all isHexChar) = true := by
    rw [List.all_eq_true]
    intro c hc
    exact join_byteToHex_hex _ c hc
  show (((sha3_512_hex_str s).length == 128) &&
    (sha3_512_hex_str s).toList.all isHexChar) = true
  rw [h1, h2]
  rfl

/-- Coil-0 fingerprint of the concrete witness chain (genesis `"T"`). -/
def c3fp0 : String := fibonacci_fingerprint (.str "T") (.str "0") (.str "0")

/-- Coil-1 fingerprint of the concrete witness chain. -/
def c3fp1 : String := fibonacci_fingerprint (.str "T") (.str "0") (.str c3fp0)

set_option maxRecDepth 10000 in
/-- Witness for C3: corrupting coil 1 of a valid 2-coil chain. -/
theorem claim_C3_single_corruption_witness :
    (∃ bad det,
      verify_coil_chain (chainCore "T" (mkGens 0 ([c3fp0, c3fp1].set 1 "b")))
        = .ok (false, bad, det) ∧
      JValue.num ((1 : ℕ) : ℚ) ∈ bad ∧
      (∀ dd ∈ det, ∃ m : ℕ, detailCoil dd = JValue.num (m : ℚ) ∧ 1 ≤ m)) ∧
    (∀ kvs : List (String × JValue),
      jlookup kvs "generations" = some (.arr []) →
      verify_coil_chain (.obj kvs) = .ok (true, [], [])) :=
  claim_C3_single_corruption "T" [c3fp0, c3fp1] 1 "b"
    (by
      intro i hi
      match i, hi with
      | 0, _ => rfl
      | 1, _ => rfl)
    (by
      intro i hi
      match i, hi with
      | 0, _ => exact sha3_valid_hex _
      | 1, _ => exact sha3_valid_hex _)
    (by decide)
    (by decide)
    (by
      intro h
      have hlen := congrArg String.length h
      rw [show ([c3fp0, c3fp1].getD 1 "") = c3fp1 from rfl] at hlen
      rw [show c3fp1.length = 128 from sha3_str_length _] at hlen
      exact absurd hlen (by decide))

/-- The `getD` at the length of the left part of an append reads the
head of the right part. -/
theorem getD_append_length {α : Type} (d : α) :
    ∀ (l1 : List α) (a : α) (l2 : List α),
      (l1 ++ a :: l2).getD l1.length d = a := by
  intro l1
  induction l1 with
  | nil => intro a l2; rfl
  | cons b t ih =>
    intro a l2
    simp only [List.cons_append, List.length_cons, List.getD_cons_succ]
    exact ih a l2

/-- C9: in a chain valid except that position `k` stores a value `s`
failing the 128-hex format check, `verify_coil_chain` flags position
`k` as `invalid_fingerprint_format`, performs no fingerprint
comparison of its own for `k` (no `fingerprint_mismatch` record with
coil `k` exists), and still uses the stored invalid value as the
positional parent of position `k + 1`: whenever the stored fingerprint
at `k + 1` differs from the recurrence recomputed over the poisoned
list, position `k + 1` is flagged `fingerprint_mismatch` against
exactly that poisoned expectation. -/
theorem claim_C9_invalid_format_poisons (genesis : String)
    (fps : List String) (k : Nat) (s : String)
    (hv : validChain genesis fps) (hh : allValidHex fps)
    (hk1 : k + 1 < fps.length)
    (hbad : is_valid_sha3_hex (.str s) = false)
    (hne : fps.getD (k + 1) "" ≠ fibonacci_fingerprint (.str genesis)
      (chainParents (k + 1) ((fps.set k s).map .str)).1
      (chainParents (k + 1) ((fps.set k s).map .str)).2) :
    ∃ bad det,
      verify_coil_chain (chainCore genesis (mkGens 0 (fps.set k s)))
        = .ok (false, bad, det) ∧
      Detail.invalidFormat (JValue.num (k : ℚ)) s.length ∈ det ∧
      (∀ e a : String, Detail.mismatch (JValue.num (k : ℚ)) e a ∉ det) ∧
      Detail.mismatch (JValue.num ((k + 1 : ℕ) : ℚ))
        (take32 (fibonacci_fingerprint (.str genesis)
          (chainParents (k + 1) ((fps.set k s).map .str)).1
          (chainParents (k + 1) ((fps.set k s).map .str)).2))
        (take32 (fps.getD (k + 1) "")) ∈ det := by
  have hk : k < fps.length := by omega
  have hne0 : mkGens 0 (fps.set k s) ≠ [] := by
    intro hcon
    have hl : (mkGens 0 (fps.set k s)).length = 0 := by rw [hcon]; rfl
    rw [mkGens_length, List.length_set] at hl
    omega
  rw [verify_chainCore_ne genesis _ hne0]
  have hsplit : fps.set k s = fps.take k ++ s :: fps.drop (k + 1) :=
    List.set_eq_take_cons_drop s hk
  have hdrop : fps.drop (k + 1) = fps.getD (k + 1) "" :: fps.drop (k + 2) :=
    drop_getD_cons "" fps (k + 1) hk1
  rw [hsplit, hdrop, mkGens_append]
  have hlen_take : (fps.take k).length = k := by
    simp [List.length_take]
    omega
  rw [hlen_take]
  have hgood := chainGo_good_seg genesis fps hv hh k 0
    (mkGens (0 + k) (s :: fps.getD (k + 1) "" :: fps.drop (k + 2))) [] []
    (by omega)
  simp only [List.drop_zero, List.take_zero, List.map_nil, Nat.zero_add]
    at hgood ⊢
  -- the accumulator after absorbing the poisoned entry
  have hacc : (fps.take k).map JValue.str ++ [JValue.str s]
      = ((fps.set k s).take (k + 1)).map JValue.str := by
    rw [hsplit]
    rw [List.take_append_eq_append_take, List.take_take]
    have hmin : min (k + 1) k = k := by omega
    rw [hmin, hlen_take]
    have : k + 1 - k = 1 := by omega
    rw [this]
    simp
  have hparents : chainParents (k + 1)
      ((fps.take k).map JValue.str ++ [JValue.str s])
      = chainParents (k + 1) ((fps.set k s).map JValue.str) := by
    rw [hacc, List.map_take]
    exact chainParents_take _ (k + 1) (k + 1) le_rfl
  have hne2 : (fps.getD (k + 1) "" == fibonacci_fingerprint (.str genesis)
      (chainParents (k + 1)
        ((fps.take k).map JValue.str ++ [JValue.str s])).1
      (chainParents (k + 1)
        ((fps.take k).map JValue.str ++ [JValue.str s])).2) = false := by
    rw [hparents]
    exact beq_eq_false_iff_ne.mpr hne
  have hstep1 := chainGo_cons_invalid (.str genesis) k s
    (mkGen (k + 1) (fps.getD (k + 1) "")
      :: mkGens (k + 2) (fps.drop (k + 2))) [] []
    ((fps.take k).map JValue.str) (by simpa using hbad)
  have hstep2 := chainGo_cons_valid_ne (.str genesis) (k + 1)
    (fps.getD (k + 1) "") (mkGens (k + 2) (fps.drop (k + 2)))
    ([] ++ [.num k]) ([] ++ [.invalidFormat (.num k) s.length])
    ((fps.take k).map JValue.str ++ [JValue.str s])
    (hh (k + 1) hk1) hne2
  obtain ⟨bS, dS, fS, hgo, hb, hd⟩ := chainGo_mkGens_ok (.str genesis)
    (fps.drop (k + 2)) (k + 2)
    (([] ++ [.num (k : ℚ)]) ++ [.num ((k + 1 : ℕ) : ℚ)])
    (([] ++ [.invalidFormat (.num (k : ℚ)) s.length])
      ++ [.mismatch (.num ((k + 1 : ℕ) : ℚ))
      (take32 (fibonacci_fingerprint (.str genesis)
        (chainParents (k + 1)
          ((fps.take k).map JValue.str ++ [JValue.str s])).1
        (chainParents (k + 1)
          ((fps.take k).map JValue.str ++ [JValue.str s])).2))
      (take32 (fps.getD (k + 1) ""))])
    (((fps.take k).map JValue.str ++ [JValue.str s])
      ++ [JValue.str (fps.getD (k + 1) "")])
  refine ⟨(([] ++ [JValue.num (k : ℚ)]) ++ [JValue.num ((k + 1 : ℕ) : ℚ)]) ++ bS,
    (([] ++ [Detail.invalidFormat (JValue.num (k : ℚ)) s.length])
      ++ [Detail.mismatch (JValue.num ((k + 1 : ℕ) : ℚ))
        (take32 (fibonacci_fingerprint (.str genesis)
          (chainParents (k + 1)
            ((fps.take k).map JValue.str ++ [JValue.str s])).1
          (chainParents (k + 1)
            ((fps.take k).map JValue.str ++ [JValue.str s])).2))
        (take32 (fps.getD (k + 1) ""))]) ++ dS, ?_, ?_, ?_, ?_⟩
  · rw [hgood]
    show Except.bind (chainGo (.str genesis)
        (mkGen k s :: (mkGen (k + 1) (fps.getD (k + 1) "")
          :: mkGens (k + 2) (fps.drop (k + 2)))) k [] []
        ((fps.take k).map JValue.str)) _ = _
    rw [hstep1, hstep2, hgo]
    simp only [List.nil_append, List.singleton_append, List.cons_append,
      List.length_cons, bind, Except.bind]
    have : (bS.length + 1 + 1 == 0) = false := by simp
    rw [this]
  · simp
  · intro e a hmem
    simp only [List.nil_append, List.singleton_append, List.cons_append,
      List.mem_cons] at hmem
    rcases hmem with hmem | hmem | hmem
    · exact Detail.noConfusion hmem
    · have hcast : (k : ℕ) = k + 1 := by
        have hco := congrArg detailCoil hmem
        simpa [detailCoil, JValue.num.injEq, Nat.cast_inj] using hco
      omega
    · obtain ⟨m, hm, hjm⟩ := hd _ hmem
      have hcast : (k : ℕ) = m := by
        simpa [detailCoil, JValue.num.injEq, Nat.cast_inj] using hm
      omega
  · have hpar2 : chainParents (k + 1)
        (List.map JValue.str
          (fps.take k ++ s :: fps.getD (k + 1) "" :: fps.drop (k + 2)))
        = chainParents (k + 1)
          ((fps.take k).map JValue.str ++ [JValue.str s]) := by
      rw [hacc, List.map_take, chainParents_take _ (k + 1) (k + 1) le_rfl,
        hsplit, hdrop]
    rw [hpar2]
    simp

set_option maxRecDepth 100000 in
set_option maxHeartbeats 8000000 in
/-- Witness for C9: position 0 of a valid 2-coil chain replaced by the
non-hex value `"zz"`; position 1 is then flagged against the poisoned
expectation. -/
theorem claim_C9_invalid_format_poisons_witness :
    ∃ bad det,
      verify_coil_chain
          (chainCore "T" (mkGens 0 ([c3fp0, c3fp1].set 0 "zz")))
        = .ok (false, bad, det) ∧
      Detail.invalidFormat (JValue.num ((0 : ℕ) : ℚ)) "zz".length ∈ det ∧
      (∀ e a : String,
        Detail.mismatch (JValue.num ((0 : ℕ) : ℚ)) e a ∉ det) ∧
      Detail.mismatch (JValue.num ((0 + 1 : ℕ) : ℚ))
        (take32 (fibonacci_fingerprint (.str "T")
          (chainParents (0 + 1)
            (([c3fp0, c3fp1].set 0 "zz").map .str)).1
          (chainParents (0 + 1)
            (([c3fp0, c3fp1].set 0 "zz").map .str)).2))
        (take32 ([c3fp0, c3fp1].getD (0 + 1) "")) ∈ det :=
  claim_C9_invalid_format_poisons "T" [c3fp0, c3fp1] 0 "zz"
    (by
      intro i hi
      match i, hi with
      | 0, _ => rfl
      | 1, _ => rfl)
    (by
      intro i hi
      match i, hi with
      | 0, _ => exact sha3_valid_hex _
      | 1, _ => exact sha3_valid_hex _)
    (by decide)
    (by rfl)
    (ne_of_beq_false (by rfl))

/-- C10: when the BloomCore has no `genesis` key, `verify_coil_chain`
behaves exactly as if the document carried the module constant
`GENESIS_TIMESTAMP` as its genesis; in particular a chain whose
fingerprints were generated against that default timestamp verifies as
intact even though the document has no genesis field at all. -/
theorem claim_C10_genesis_default (kvs : List (String × JValue))
    (hno : jlookup kvs "genesis" = none) :
    verify_coil_chain (.obj kvs)
      = verify_coil_chain
          (.obj (("genesis", .str GENESIS_TIMESTAMP) :: kvs)) ∧
    (∀ fps : List String,
      validChain GENESIS_TIMESTAMP fps → allValidHex fps →
      jlookup kvs "generations" = some (.arr (mkGens 0 fps)) →
      verify_coil_chain (.obj kvs) = .ok (true, [], [])) := by
  have hlookgens : jlookup (("genesis", JValue.str GENESIS_TIMESTAMP) :: kvs)
      "generations" = jlookup kvs "generations" := by
    rw [jlookup, jlookup, List.find?_cons_of_neg]
    decide
  have hlookgen2 : jlookup (("genesis", JValue.str GENESIS_TIMESTAMP) :: kvs)
      "genesis" = some (.str GENESIS_TIMESTAMP) := by
    rw [jlookup, List.find?_cons_of_pos]
    · rfl
    · rfl
  constructor
  · simp only [verify_coil_chain, pyGet, hno, hlookgens, hlookgen2,
      Option.getD_some, Option.getD_none]
  · intro fps hv hh hgens
    cases fps with
    | nil => exact verify_chain_empty_gens kvs (by simpa [mkGens] using hgens)
    | cons a t =>
      have h1 : pyGet (.obj kvs) "generations" (.arr [])
          = .ok (.arr (mkGens 0 (a :: t))) := by
        simp [pyGet, hgens]
      have h2 : pyGet (.obj kvs) "genesis" (.str GENESIS_TIMESTAMP)
          = .ok (.str GENESIS_TIMESTAMP) := by
        simp [pyGet, hno]
      have hgo := chainGo_good_seg GENESIS_TIMESTAMP (a :: t) hv hh
        (a :: t).length 0 [] [] [] (by omega)
      simp only [List.drop_zero, List.take_length, List.take_zero,
        List.map_nil, Nat.zero_add, List.append_nil] at hgo
      have htruthy : pyTruthy (.arr (mkGens 0 (a :: t))) = true := by
        rw [show mkGens 0 (a :: t) = mkGen 0 a :: mkGens 1 t from rfl]
        simp [pyTruthy]
      simp only [verify_coil_chain, h1, h2, bind, Except.bind, htruthy,
        if_true, pyIter]
      rw [hgo]
      rfl

/-- Coil-0 fingerprint generated against the default timestamp. -/
def c10fp0 : String :=
  fibonacci_fingerprint (.str GENESIS_TIMESTAMP) (.str "0") (.str "0")

set_option maxRecDepth 10000 in
/-- Witness for C10: a genesis-less document holding a 1-coil chain
generated with the default timestamp verifies as intact. -/
theorem claim_C10_genesis_default_witness :
    (verify_coil_chain (.obj [("generations", .arr (mkGens 0 [c10fp0]))])
      = verify_coil_chain (.obj (("genesis", .str GENESIS_TIMESTAMP)
          :: [("generations", .arr (mkGens 0 [c10fp0]))]))) ∧
    verify_coil_chain (.obj [("generations", .arr (mkGens 0 [c10fp0]))])
      = .ok (true, [], []) :=
  ⟨(claim_C10_genesis_default [("generations", .arr (mkGens 0 [c10fp0]))]
      rfl).1,
   (claim_C10_genesis_default [("generations", .arr (mkGens 0 [c10fp0]))]
      rfl).2 [c10fp0]
    (by
      intro i hi
      match i, hi with
      | 0, _ => rfl)
    (by
      intro i hi
      match i, hi with
      | 0, _ => exact sha3_valid_hex _)
    rfl⟩

/-! ## Claims C1 and C2: the envelope report -/

/-- Binding a success just applies the continuation. -/
theorem ok_bind {α β : Type} (a : α) (f : α → Except PyErr β) :
    ((Except.ok a : Except PyErr α) >>= f) = f a := rfl

/-- Successful results of a bind factor through a successful stage. -/
theorem bind_ok_iff {α β : Type} (x : Except PyErr α)
    (f : α → Except PyErr β) (r : β) :
    (x >>= f) = .ok r ↔ ∃ a, x = .ok a ∧ f a = .ok r := by
  cases x with
  | error e => simp [Bind.bind, Except.bind]
  | ok a => simp [Bind.bind, Except.bind]

/-- The `pure` succeeds with exactly its argument. -/
theorem pure_ok_iff {α : Type} (a : α) (r : α) :
    ((pure a : Except PyErr α) = .ok r) ↔ a = r := by
  simp [pure, Except.pure]

/-- The external sub-report always carries the `verified = None`
placeholder. -/
theorem verify_external_verified_none (d : JValue) (e : ExtReport)
    (h : verify_external_fingerprints d = .ok e) : e.verified = none := by
  rw [verify_external_fingerprints] at h
  rw [bind_ok_iff] at h
  obtain ⟨exts, _, h⟩ := h
  rw [bind_ok_iff] at h
  obtain ⟨n, _, h⟩ := h
  rw [bind_ok_iff] at h
  obtain ⟨items, _, h⟩ := h
  rw [bind_ok_iff] at h
  obtain ⟨srcs, _, h⟩ := h
  rw [bind_ok_iff] at h
  obtain ⟨algs, _, h⟩ := h
  rw [pure_ok_iff] at h
  rw [← h]

/-- C1: whenever `verify_envelope` produces a report, its overall
verdict is `PASS` exactly when the digest check, the chain check and
the ratio check all pass, and the external-fingerprint sub-report
carries `verified = None` — never true or false. -/
theorem claim_C1_verdict (data : JValue) (r : Report)
    (h : verify_envelope data = .ok r) :
    (r.result = "PASS"
      ↔ (r.eternal.ok = true ∧ r.chain.ok = true ∧ r.phi.ok = true)) ∧
    r.external.verified = none := by
  rw [verify_envelope] at h
  rw [bind_ok_iff] at h
  obtain ⟨bc, _, h⟩ := h
  rw [bind_ok_iff] at h
  obtain ⟨ef, _, h⟩ := h
  rw [bind_ok_iff] at h
  obtain ⟨ch, _, h⟩ := h
  rw [bind_ok_iff] at h
  obtain ⟨ph, _, h⟩ := h
  rw [bind_ok_iff] at h
  obtain ⟨ext, hext, h⟩ := h
  rw [bind_ok_iff] at h
  obtain ⟨storedField, _, h⟩ := h
  rw [bind_ok_iff] at h
  obtain ⟨gensField, _, h⟩ := h
  rw [bind_ok_iff] at h
  obtain ⟨nCoils, _, h⟩ := h
  rw [pure_ok_iff] at h
  subst h
  dsimp only
  refine ⟨?_, verify_external_verified_none data ext hext⟩
  cases hcond : (ef.1 && ch.1 && ph.1) with
  | true =>
    have h1 := hcond
    rw [Bool.and_eq_true, Bool.and_eq_true] at h1
    simp only [hcond, if_true]
    simp [h1.1.1, h1.1.2, h1.2]
  | false =>
    simp only [hcond, Bool.false_eq_true, if_false]
    constructor
    · intro hcon
      exact absurd hcon (by decide)
    · intro hall
      have htrue : (ef.1 && ch.1 && ph.1) = true := by
        rw [hall.1, hall.2.1, hall.2.2]
        rfl
      rw [hcond] at htrue
      exact absurd htrue (by decide)

/-- The report the model produces for the empty JSON object. -/
def c1report : Report := ((verify_envelope (.obj [])).toOption).getD default

set_option maxRecDepth 100000 in
set_option maxHeartbeats 8000000 in
/-- Witness for C1 at the empty document. -/
theorem claim_C1_verdict_witness :
    (c1report.result = "PASS"
      ↔ (c1report.eternal.ok = true ∧ c1report.chain.ok = true ∧
          c1report.phi.ok = true)) ∧
    c1report.external.verified = none :=
  claim_C1_verdict (.obj []) c1report (by rfl)

/-- A JSON object value. -/
def isObj : JValue → Bool
  | .obj _ => true
  | _ => false

/-- A key that is absent or bound to a string. -/
def strOrAbsent (kvs : List (String × JValue)) (key : String) : Bool :=
  match jlookup kvs key with
  | none => true
  | some (.str _) => true
  | some _ => false

/-- A generation entry the verifier can process without raising: a
dict whose `fingerprint`, when present, is a string. -/
def wellTypedGen : JValue → Bool
  | .obj g => strOrAbsent g "fingerprint"
  | _ => false

/-- A BloomCore the verifier can process without raising: a dict whose
`generations` (if present) is a list of well-typed entries, whose
`phi_ratio_observed` (if present) is numeric, and whose
`eternal_fingerprint` (if present) is a string or falsy. -/
def wellTypedCore : JValue → Bool
  | .obj c =>
    (match jlookup c "generations" with
     | none => true
     | some (.arr gens) => gens.all wellTypedGen
     | some _ => false) &&
    (match jlookup c "phi_ratio_observed" with
     | none => true
     | some (.num _) => true
     | some (.bool _) => true
     | some _ => false) &&
    (match jlookup c "eternal_fingerprint" with
     | none => true
     | some (.str _) => true
     | some v => !pyTruthy v)
  | _ => false

/-- A document the verifier can process without raising: a dict whose
`serpent_bloom_core` (if present) is a well-typed core and whose
`external_fingerprints` (if present) is a list of dicts. -/
def wellTypedDoc : JValue → Bool
  | .obj d =>
    (match jlookup d "serpent_bloom_core" with
     | none => true
     | some c => wellTypedCore c) &&
    (match jlookup d "external_fingerprints" with
     | none => true
     | some (.arr es) => es.all isObj
     | some _ => false)
  | _ => false

/-- The concrete malformed-but-parseable counterexample document:
`phi_ratio_observed` bound to the string `"x"`. -/
def c2bad : JValue :=
  .obj [("serpent_bloom_core", .obj [("phi_ratio_observed", .str "x")])]

set_option maxRecDepth 100000 in
set_option maxHeartbeats 8000000 in
/-- Counterexample to C2 as stated: on the valid JSON document `c2bad`
the verifier raises `TypeError` (in `abs(observed - TRUE_PHI)`)
instead of returning a report. -/
theorem claim_C2_counterexample :
    verify_envelope c2bad = .error PyErr.typeError := by rfl

/-- A well-typed generation list never makes the chain loop raise. -/
theorem chainGo_ok_of_typed (g : JValue) :
    ∀ (l : List JValue), (∀ e ∈ l, wellTypedGen e = true) →
      ∀ (i : Nat) (bad : List JValue) (det : List Detail) (fps : List JValue),
      ∃ r, chainGo g l i bad det fps = .ok r := by
  intro l
  induction l with
  | nil => intro _ i bad det fps; exact ⟨_, rfl⟩
  | cons e rest ih =>
    intro hall i bad det fps
    have he : wellTypedGen e = true := hall e (by simp)
    have hrest : ∀ x ∈ rest, wellTypedGen x = true :=
      fun x hx => hall x (by simp [hx])
    match e, he with
    | .obj gkvs, he =>
      have hstored : ∃ s : String,
          (jlookup gkvs "fingerprint").getD (.str "") = .str s := by
        rw [wellTypedGen, strOrAbsent] at he
        cases hlk : jlookup gkvs "fingerprint" with
        | none => exact ⟨"", rfl⟩
        | some v =>
          rw [hlk] at he
          cases v with
          | str s => exact ⟨s, rfl⟩
          | null => simp at he
          | bool b => simp at he
          | num q => simp at he
          | arr l2 => simp at he
          | obj kv2 => simp at he
      obtain ⟨s, hs⟩ := hstored
      show ∃ r, chainGo g (JValue.obj gkvs :: rest) i bad det fps = .ok r
      simp only [chainGo, hs]
      by_cases hval : is_valid_sha3_hex (.str s) = true
      · simp only [hval, if_true]
        exact ih hrest (i + 1) _ _ _
      · simp only [hval, Bool.false_eq_true, if_false, pyLen]
        exact ih hrest (i + 1) _ _ _

/-- Field extraction over a list of dicts never raises. -/
theorem getFields_ok (key : String) :
    ∀ es : List JValue, (∀ e ∈ es, isObj e = true) →
      ∃ vs, getFields key es = .ok vs := by
  intro es
  induction es with
  | nil => intro _; exact ⟨[], rfl⟩
  | cons e rest ih =>
    intro hall
    obtain ⟨vs, hvs⟩ := ih (fun x hx => hall x (by simp [hx]))
    have he : isObj e = true := hall e (by simp)
    match e, he with
    | .obj g, _ =>
      refine ⟨((jlookup g key).getD .null) :: vs, ?_⟩
      rw [getFields]
      rw [bind_ok_iff]
      refine ⟨(jlookup g key).getD .null, rfl, ?_⟩
      rw [bind_ok_iff]
      exact ⟨vs, hvs, rfl⟩

/-- On a well-typed core, the `stored or ""` slot of the digest check
is always a string (so the report construction cannot raise on it). -/
theorem eternal_snd_str (c : List (String × JValue))
    (hw : wellTypedCore (.obj c) = true) :
    ∃ s : String,
      (if pyTruthy ((jlookup c "eternal_fingerprint").getD .null)
        then (jlookup c "eternal_fingerprint").getD .null
        else .str "") = .str s := by
  rw [wellTypedCore, Bool.and_eq_true, Bool.and_eq_true] at hw
  have hef := hw.2
  cases hlk : jlookup c "eternal_fingerprint" with
  | none => exact ⟨"", rfl⟩
  | some v =>
    rw [hlk] at hef
    cases v with
    | str t =>
      by_cases ht : pyTruthy (.str t) = true
      · exact ⟨t, by simp only [Option.getD_some, ht, if_true]⟩
      · exact ⟨"", by
          simp only [Option.getD_some, ht, Bool.false_eq_true, if_false]⟩
    | null => exact ⟨"", rfl⟩
    | bool b =>
      cases b with
      | false => exact ⟨"", rfl⟩
      | true => simp [pyTruthy] at hef
    | num q =>
      have hfal : pyTruthy (.num q) = false := by simpa using hef
      exact ⟨"", by
        simp only [Option.getD_some, hfal, Bool.false_eq_true, if_false]⟩
    | arr l2 =>
      have hfal : pyTruthy (.arr l2) = false := by simpa using hef
      exact ⟨"", by
        simp only [Option.getD_some, hfal, Bool.false_eq_true, if_false]⟩
    | obj kv2 =>
      have hfal : pyTruthy (.obj kv2) = false := by simpa using hef
      exact ⟨"", by
        simp only [Option.getD_some, hfal, Bool.false_eq_true, if_false]⟩

/-- A well-typed core never makes the chain check raise. -/
theorem verify_chain_ok_typed (c : List (String × JValue))
    (hw : wellTypedCore (.obj c) = true) :
    ∃ r, verify_coil_chain (.obj c) = .ok r := by
  rw [wellTypedCore, Bool.and_eq_true, Bool.and_eq_true] at hw
  have hg := hw.1.1
  rw [verify_coil_chain]
  cases hlk : jlookup c "generations" with
  | none =>
    refine ⟨(true, [], []), ?_⟩
    rw [bind_ok_iff]
    refine ⟨.arr [], by rw [pyGet, hlk]; rfl, ?_⟩
    rw [bind_ok_iff]
    exact ⟨_, rfl, rfl⟩
  | some v =>
    rw [hlk] at hg
    cases v with
    | arr gens =>
      have hall : ∀ e ∈ gens, wellTypedGen e = true := by
        rw [List.all_eq_true] at hg
        exact hg
      by_cases htr : pyTruthy (.arr gens) = true
      · obtain ⟨r0, hr0⟩ := chainGo_ok_of_typed
          ((jlookup c "genesis").getD (.str GENESIS_TIMESTAMP)) gens hall
          0 [] [] []
        refine ⟨(r0.1.length == 0, r0.1, r0.2.1), ?_⟩
        rw [bind_ok_iff]
        refine ⟨.arr gens, by rw [pyGet, hlk]; rfl, ?_⟩
        rw [bind_ok_iff]
        refine ⟨(jlookup c "genesis").getD (.str GENESIS_TIMESTAMP), rfl, ?_⟩
        simp only [htr, if_true]
        rw [bind_ok_iff]
        refine ⟨gens, rfl, ?_⟩
        rw [bind_ok_iff]
        exact ⟨r0, hr0, rfl⟩
      · refine ⟨(true, [], []), ?_⟩
        rw [bind_ok_iff]
        refine ⟨.arr gens, by rw [pyGet, hlk]; rfl, ?_⟩
        rw [bind_ok_iff]
        refine ⟨(jlookup c "genesis").getD (.str GENESIS_TIMESTAMP), rfl, ?_⟩
        simp only [htr, Bool.false_eq_true, if_false]
        rfl
    | null => simp at hg
    | bool b => simp at hg
    | num q => simp at hg
    | str t => simp at hg
    | obj kv2 => simp at hg

/-- A well-typed core never makes the ratio check raise. -/
theorem verify_phi_ok_typed (c : List (String × JValue))
    (hw : wellTypedCore (.obj c) = true) :
    ∃ r, verify_phi (.obj c) = .ok r := by
  rw [wellTypedCore, Bool.and_eq_true, Bool.and_eq_true] at hw
  have hp := hw.1.2
  rw [verify_phi]
  cases hlk : jlookup c "phi_ratio_observed" with
  | none =>
    refine ⟨(decide (|0 - TRUE_PHI| < PHI_TOL), .num 0, |0 - TRUE_PHI|), ?_⟩
    rw [bind_ok_iff]
    refine ⟨.num 0, by rw [pyGet, hlk]; rfl, ?_⟩
    rw [bind_ok_iff]
    exact ⟨0, rfl, rfl⟩
  | some v =>
    rw [hlk] at hp
    cases v with
    | num q =>
      refine ⟨(decide (|q - TRUE_PHI| < PHI_TOL), .num q, |q - TRUE_PHI|), ?_⟩
      rw [bind_ok_iff]
      refine ⟨.num q, by rw [pyGet, hlk]; rfl, ?_⟩
      rw [bind_ok_iff]
      exact ⟨q, rfl, rfl⟩
    | bool b =>
      refine ⟨(decide (|(if b then (1 : ℚ) else 0) - TRUE_PHI| < PHI_TOL),
        .bool b, |(if b then (1 : ℚ) else 0) - TRUE_PHI|), ?_⟩
      rw [bind_ok_iff]
      refine ⟨.bool b, by rw [pyGet, hlk]; rfl, ?_⟩
      rw [bind_ok_iff]
      exact ⟨if b then 1 else 0, rfl, rfl⟩
    | null => simp at hp
    | str t => simp at hp
    | arr l2 => simp at hp
    | obj kv2 => simp at hp

/-- A well-typed document never makes the external report raise. -/
theorem verify_external_ok_typed (d : List (String × JValue))
    (hw : (match jlookup d "external_fingerprints" with
      | none => true
      | some (.arr es) => es.all isObj
      | some _ => false) = true) :
    ∃ e, verify_external_fingerprints (.obj d) = .ok e := by
  rw [verify_external_fingerprints]
  cases hlk : jlookup d "external_fingerprints" with
  | none =>
    refine ⟨⟨0, [], [], none⟩, ?_⟩
    rw [bind_ok_iff]
    refine ⟨.arr [], by rw [pyGet, hlk]; rfl, ?_⟩
    rw [bind_ok_iff]
    refine ⟨0, rfl, ?_⟩
    rw [bind_ok_iff]
    refine ⟨[], rfl, ?_⟩
    rw [bind_ok_iff]
    refine ⟨[], rfl, ?_⟩
    rw [bind_ok_iff]
    exact ⟨[], rfl, rfl⟩
  | some v =>
    rw [hlk] at hw
    cases v with
    | arr es =>
      have hall : ∀ e ∈ es, isObj e = true := by
        rw [List.all_eq_true] at hw
        exact hw
      obtain ⟨vs1, hvs1⟩ := getFields_ok "source" es hall
      obtain ⟨vs2, hvs2⟩ := getFields_ok "algorithm" es hall
      refine ⟨⟨es.length, vs1, vs2, none⟩, ?_⟩
      rw [bind_ok_iff]
      refine ⟨.arr es, by rw [pyGet, hlk]; rfl, ?_⟩
      rw [bind_ok_iff]
      refine ⟨es.length, rfl, ?_⟩
      rw [bind_ok_iff]
      refine ⟨es, rfl, ?_⟩
      rw [bind_ok_iff]
      refine ⟨vs1, hvs1, ?_⟩
      rw [bind_ok_iff]
      exact ⟨vs2, hvs2, rfl⟩
    | null => simp at hw
    | bool b => simp at hw
    | num q => simp at hw
    | str t => simp at hw
    | obj kv2 => simp at hw

/-- Chain a known-successful stage through a bind. -/
theorem bind_ok_exists {α β : Type} (x : Except PyErr α)
    (f : α → Except PyErr β) (a : α) (hx : x = .ok a)
    (hf : ∃ r, f a = .ok r) : ∃ r, (x >>= f) = .ok r := by
  obtain ⟨r, hr⟩ := hf
  exact ⟨r, by rw [hx, ok_bind, hr]⟩

/-- The `efStoredField` never raises on a string. -/
theorem efStoredField_str (s : String) :
    ∃ o, efStoredField (.str s) = .ok o := by
  rw [efStoredField]
  by_cases ht : pyTruthy (.str s) = true
  · exact ⟨some (take32 s), by rw [if_pos ht]⟩
  · exact ⟨none, by rw [if_neg ht]⟩

/-- Reading and measuring the `generations` field for the report
cannot raise on a well-typed core. -/
theorem coils_checked_ok_typed (c : List (String × JValue))
    (hw : wellTypedCore (.obj c) = true) :
    ∃ (g : JValue) (n : Nat),
      pyGet (.obj c) "generations" (.arr []) = .ok g ∧ pyLen g = .ok n := by
  rw [wellTypedCore, Bool.and_eq_true, Bool.and_eq_true] at hw
  have hg := hw.1.1
  cases hlk : jlookup c "generations" with
  | none => exact ⟨.arr [], 0, by rw [pyGet, hlk]; rfl, rfl⟩
  | some v =>
    rw [hlk] at hg
    cases v with
    | arr gens =>
      exact ⟨.arr gens, gens.length, by rw [pyGet, hlk]; rfl, rfl⟩
    | null => simp at hg
    | bool b => simp at hg
    | num q => simp at hg
    | str t => simp at hg
    | obj kv2 => simp at hg

/-- C2 (amended): for every valid JSON document whose present fields
have the expected types — `serpent_bloom_core` an object, its
`generations` a list of objects with string fingerprints where
present, `phi_ratio_observed` numeric, `eternal_fingerprint` a string
or falsy, `external_fingerprints` a list of objects —
`verify_envelope` returns a report without raising; and the document
missing every expected key yields a `FAIL` report rather than a
crash. -/
theorem claim_C2_no_crash_amended :
    (∀ d : JValue, wellTypedDoc d = true → ∃ r, verify_envelope d = .ok r) ∧
    (∃ r, verify_envelope (.obj []) = .ok r ∧ r.result = "FAIL") := by
  constructor
  · intro d hw
    match d, hw with
    | .obj kvs, hw =>
      rw [wellTypedDoc, Bool.and_eq_true] at hw
      obtain ⟨hwc, hwe⟩ := hw
      have hbc : ∃ bckvs, pyGet (.obj kvs) "serpent_bloom_core" (.obj [])
          = .ok (.obj bckvs) ∧ wellTypedCore (.obj bckvs) = true := by
        cases hlk : jlookup kvs "serpent_bloom_core" with
        | none => exact ⟨[], by rw [pyGet, hlk]; rfl, by decide⟩
        | some v =>
          rw [hlk] at hwc
          cases v with
          | obj bckvs => exact ⟨bckvs, by rw [pyGet, hlk]; rfl, hwc⟩
          | null => simp [wellTypedCore] at hwc
          | bool b => simp [wellTypedCore] at hwc
          | num q => simp [wellTypedCore] at hwc
          | str t => simp [wellTypedCore] at hwc
          | arr l2 => simp [wellTypedCore] at hwc
      obtain ⟨bckvs, hbcEq, hbcw⟩ := hbc
      obtain ⟨efS, hefS⟩ := eternal_snd_str bckvs hbcw
      have hef : verify_eternal_fingerprint (.obj bckvs)
          = .ok (pyEq ((jlookup bckvs "eternal_fingerprint").getD .null)
              (.str (sha3_json (.obj (bckvs.filter
                (fun kv => !(kv.1 == "eternal_fingerprint")))))),
            .str efS,
            sha3_json (.obj (bckvs.filter
              (fun kv => !(kv.1 == "eternal_fingerprint"))))) := by
        rw [verify_eternal_fingerprint, ← hefS]
      obtain ⟨ch, hch⟩ := verify_chain_ok_typed bckvs hbcw
      obtain ⟨ph, hph⟩ := verify_phi_ok_typed bckvs hbcw
      obtain ⟨ext, hext⟩ := verify_external_ok_typed kvs hwe
      obtain ⟨sf, hsf⟩ := efStoredField_str efS
      obtain ⟨gf, nc, hgf, hnc⟩ := coils_checked_ok_typed bckvs hbcw
      rw [verify_envelope]
      apply bind_ok_exists _ _ _ hbcEq
      apply bind_ok_exists _ _ _ hef
      apply bind_ok_exists _ _ _ hch
      apply bind_ok_exists _ _ _ hph
      apply bind_ok_exists _ _ _ hext
      apply bind_ok_exists _ _ _ hsf
      apply bind_ok_exists _ _ _ hgf
      apply bind_ok_exists _ _ _ hnc
      exact ⟨_, rfl⟩
  · refine ⟨((verify_envelope (.obj [])).toOption).getD default, ?_, ?_⟩
    · rfl
    · rfl

/-- A fully-populated well-typed document for the C2 witness. -/
def c2good : JValue :=
  .obj [("serpent_bloom_core", .obj
      [("generations", .arr [.obj [("coil", .num 0), ("fingerprint", .str "zz")]]),
       ("phi_ratio_observed", .bool true),
       ("eternal_fingerprint", .str "abc")]),
    ("external_fingerprints", .arr [.obj [("source", .str "s")]])]

/-- Witness for the amended C2 at a concrete well-typed document. -/
theorem claim_C2_no_crash_amended_witness :
    wellTypedDoc c2good = true ∧ ∃ r, verify_envelope c2good = .ok r :=
  ⟨by rfl, claim_C2_no_crash_amended.1 c2good (by rfl)⟩

end Bloom

